import Mathlib

/-! lora_multi_sondes: the sampling / encode / transmit cycle.

Shallow embedding of `lora_multi_sondes_test_dhtOK_oled.cpp` (both board
variants share the functions modelled here verbatim; they differ only in the
display back-end).

Numeric model.  The source names its target, the Heltec CubeCell HTCC-AB02,
a 32-bit ARM core: `int` is 32 bits wide, `float` is IEEE-754 binary32 and
`double` is IEEE-754 binary64, with round-to-nearest-even.  A floating datum is NaN, a signed infinity, or a
rational number; every arithmetic operation computes the exact rational
result and rounds it to the format of the C++ expression.  Signed zero is
not distinguished (no operation of this program observes the sign of zero).
-/

namespace LoraMultiSondes

/-! ## Floating-point data -/

/-- An IEEE-754 datum: not-a-number, a signed infinity, or a finite value. -/
inductive Flt where
  | nan : Flt
  | inf (negative : Bool) : Flt
  | fin (q : ℚ) : Flt
  deriving DecidableEq

/-- The C macro `isnan`. -/
def isnan : Flt → Bool
  | Flt.nan => true
  | _ => false

/-- A binary interchange format: significand width and largest exponent. -/
structure Format where
  prec : Nat
  emax : Int

/-- The `float` type of the target. -/
def binary32 : Format := ⟨24, 127⟩

/-- The `double` type of the target. -/
def binary64 : Format := ⟨53, 1023⟩

/-- Smallest exponent of a normal number of the format. -/
def Format.emin (F : Format) : Int := 1 - F.emax

/-- The power of two `2^e` for an integer exponent. -/
def pow2 (e : Int) : ℚ :=
  if 0 ≤ e then (2 : ℚ) ^ e.toNat else 1 / (2 : ℚ) ^ (-e).toNat

/-- Base-2 logarithm by repeated halving; `fuel` bounds the number of halvings. -/
def log2Fuel : Nat → Nat → Nat
  | 0, _ => 0
  | fuel + 1, n => if 2 ≤ n then log2Fuel fuel (n / 2) + 1 else 0

/-- Floor of the base-2 logarithm of a positive natural number. -/
def ilog2 (n : Nat) : Nat := log2Fuel n n

/-- Exponent of the binade of a non-zero rational: `2^e ≤ |q| < 2^(e+1)`. -/
def binade (q : ℚ) : Int :=
  let a : Int := ilog2 q.num.natAbs
  let b : Int := ilog2 q.den
  if pow2 (a - b) ≤ |q| then a - b else a - b - 1

/-- Nearest integer, ties to the even one. -/
def roundHalfEven (q : ℚ) : Int :=
  let f := Rat.floor q
  let r := q - f
  if r < 1 / 2 then f
  else if 1 / 2 < r then f + 1
  else if f % 2 = 0 then f else f + 1

/-- Rounding of an exact result to a format: round-to-nearest-even on the
grid of the binade (the subnormal grid below `2^emin`), overflow to infinity. -/
def Format.round (F : Format) (q : ℚ) : Flt :=
  if q = 0 then Flt.fin 0
  else
    let e := max (binade q) F.emin
    let ulp := pow2 (e - (F.prec - 1))
    let r := (roundHalfEven (q / ulp) : ℚ) * ulp
    if pow2 (F.emax + 1) ≤ |r| then Flt.inf (decide (q < 0)) else Flt.fin r

/-- Multiplication evaluated in format `F`. -/
def Flt.mul (F : Format) : Flt → Flt → Flt
  | Flt.nan, _ => Flt.nan
  | _, Flt.nan => Flt.nan
  | Flt.inf s, Flt.inf t => Flt.inf (s != t)
  | Flt.inf s, Flt.fin b => if b = 0 then Flt.nan else Flt.inf (s != decide (b < 0))
  | Flt.fin a, Flt.inf t => if a = 0 then Flt.nan else Flt.inf (decide (a < 0) != t)
  | Flt.fin a, Flt.fin b => F.round (a * b)

/-- Division evaluated in format `F`. -/
def Flt.div (F : Format) : Flt → Flt → Flt
  | Flt.nan, _ => Flt.nan
  | _, Flt.nan => Flt.nan
  | Flt.inf _, Flt.inf _ => Flt.nan
  | Flt.inf s, Flt.fin b => Flt.inf (s != decide (b < 0))
  | Flt.fin _, Flt.inf _ => Flt.fin 0
  | Flt.fin a, Flt.fin b =>
    if b = 0 then (if a = 0 then Flt.nan else Flt.inf (decide (a < 0)))
    else F.round (a / b)

/-- Conversion between formats (`double` to `float` on assignment). -/
def Flt.convert (F : Format) : Flt → Flt
  | Flt.fin a => F.round a
  | x => x

/-- Conversion of an `int` to a floating type. -/
def Flt.ofInt (F : Format) (i : Int) : Flt := F.round i

/-- A decimal literal `digits / 10^scale` converted to a format. -/
def Flt.ofDecimal (F : Format) (digits : Int) (scale : Nat) : Flt :=
  F.round ((digits : ℚ) / (10 : ℚ) ^ scale)

/-- Wrap an integer into the range of a 32-bit `int`. -/
def wrapInt32 (i : Int) : Int := (i + 2 ^ 31) % 2 ^ 32 - 2 ^ 31

/-- Truncation toward zero of a rational. -/
def truncate (q : ℚ) : Int := if 0 ≤ q then Rat.floor q else -Rat.floor (-q)

section Target

/- Result of converting to `int` a floating value that is NaN, infinite or
whose truncation does not fit an `int`.  C++ leaves it undefined; the value
the target produces is a parameter of the model. -/
variable (castUndef : Flt → Int)

/-- The conversion `static_cast<int>(x)`: truncation toward zero. -/
def staticCastInt (x : Flt) : Int :=
  match x with
  | Flt.fin q =>
    if -2 ^ 31 ≤ truncate q ∧ truncate q < 2 ^ 31 then truncate q
    else wrapInt32 (castUndef x)
  | _ => wrapInt32 (castUndef x)

/-- The library call `pow(10, d)` in `double`, correctly rounded. -/
def pow10 (d : Int) : Flt :=
  if 0 ≤ d then binary64.round ((10 : ℚ) ^ d.toNat)
  else binary64.round (1 / (10 : ℚ) ^ (-d).toNat)

/-- Upper-case hexadecimal digit character of a value below 16. -/
def hexDigitUpper (d : Nat) : Char :=
  if d < 10 then Char.ofNat (48 + d) else Char.ofNat (55 + d)

/-- Digits of an unsigned value in base 16, most significant first, as the
conversion loop of `printf` produces them; `fuel` bounds the digit count. -/
def hexDigits : Nat → Nat → List Char
  | 0, _ => []
  | fuel + 1, n =>
    if n < 16 then [hexDigitUpper n]
    else hexDigits fuel (n / 16) ++ [hexDigitUpper (n % 16)]

/-- The text the call `sprintf(hexChar, "%04X", intValue)` formats: the `int`
is read as `unsigned int`, written in upper-case base 16 and left-padded with
zeros to a minimum width of 4.  Only the format is modelled, not the
destination: the text is the content of `hexChar` when it fits there with its
NUL, that is for at most 4 digits (`overrunsHexChar` below).  A longer text
makes the source write past the end of `hexChar`, which C++ leaves undefined. -/
def sprintf04X (intValue : Int) : String :=
  let u := (intValue % 2 ^ 32).toNat
  let ds := hexDigits 8 u
  String.mk (List.replicate (4 - ds.length) '0' ++ ds)

/-- Capacity in bytes of the buffer `char hexChar[5]`. -/
def hexCharSize : Nat := 5

/-- Whether the text `sprintf` formats, with its terminating NUL, exceeds the
buffer `char hexChar[5]`. -/
def overrunsHexChar (intValue : Int) : Bool :=
  decide (hexCharSize < (sprintf04X intValue).length + 1)

/-- Source function `toHexString`.  The value is the text `sprintf` formats
for the converted `intValue`; it is the `String` the source builds from
`hexChar` whenever `overrunsHexChar intValue` is false. -/
def toHexString (value : Flt) (decimalPlaces : Int) : String :=
  if decimalPlaces = 0 then
    let intValue := staticCastInt castUndef value
    sprintf04X intValue
  else
    let intValue := staticCastInt castUndef (Flt.mul binary64 value (pow10 decimalPlaces))
    sprintf04X intValue

/-- Source function `createDataFrame`. -/
def createDataFrame (temperature humidity batteryVoltage : Flt) : String :=
  let tempHex := toHexString castUndef temperature 1
  let humHex := toHexString castUndef humidity 0
  let batteryHex := toHexString castUndef batteryVoltage 2
  let dataFrame := batteryHex ++ tempHex ++ humHex
  dataFrame

end Target

/-! ## Device state and externally visible effects -/

/-- Logic level of a digital output pin. -/
inductive Level where
  | LOW : Level
  | HIGH : Level
  deriving DecidableEq

/-- One externally visible effect of the firmware, in program order.
`transmit` is the outbound line `Serial.println("Envoi de la trame de
données : " + dataFrame)` of `sendDataFrame`; `displayInit` and
`displayTemperature` stand for the calls into the display back-end. -/
inductive Event where
  | serialBegin (baud : Nat) : Event
  | pinModeOutput : Event
  | digitalWrite (level : Level) : Event
  | delay (ms : Nat) : Event
  | dhtBegin : Event
  | displayInit : Event
  | dhtReadTemperature (result : Flt) : Event
  | dhtReadHumidity (result : Flt) : Event
  | analogRead (result : Int) : Event
  | serialPrint (text : String) : Event
  | serialPrintFloat (value : Flt) : Event
  | serialPrintln (text : String) : Event
  | transmit (dataFrame : String) : Event
  | displayTemperature (temperature : Flt) : Event
  deriving DecidableEq

/-- The device: level of the `Vext` power line and the effects so far. -/
structure Device where
  vext : Level
  log : List Event
  deriving DecidableEq

/-- Append an effect to the log. -/
def Device.emit (dev : Device) (e : Event) : Device :=
  { dev with log := dev.log ++ [e] }

/-- The call `digitalWrite(Vext, level)`. -/
def digitalWrite (dev : Device) (level : Level) : Device :=
  { vext := level, log := dev.log ++ [Event.digitalWrite level] }

/-- The call `delay(ms)`. -/
def delay (dev : Device) (ms : Nat) : Device := dev.emit (Event.delay ms)

/-- What the hardware returns during one iteration of `loop`: the results of
`dht.readTemperature()`, `dht.readHumidity()` and `analogRead(BATTERY_PIN)`. -/
structure Sample where
  rawTemperature : Flt
  rawHumidity : Flt
  adcValue : Int

/-- Source function `setup`. -/
def setup (dev : Device) : Device :=
  let dev := dev.emit (Event.serialBegin 9600)
  let dev := dev.emit Event.pinModeOutput
  let dev := digitalWrite dev Level.HIGH
  let dev := dev.emit Event.dhtBegin
  let dev := dev.emit Event.displayInit
  dev

/-- Source function `readDHT22`; the two reference parameters are returned. -/
def readDHT22 (dev : Device) (rawTemperature rawHumidity : Flt) : Device × Flt × Flt :=
  let temperature := rawTemperature
  let dev := dev.emit (Event.dhtReadTemperature rawTemperature)
  let humidity := rawHumidity
  let dev := dev.emit (Event.dhtReadHumidity rawHumidity)
  if isnan temperature || isnan humidity then
    let dev := dev.emit (Event.serialPrintln "Erreur de lecture du capteur DHT22 !")
    (dev, Flt.fin 0, Flt.fin 0)
  else
    let dev := dev.emit (Event.serialPrint "Température: ")
    let dev := dev.emit (Event.serialPrintFloat temperature)
    let dev := dev.emit (Event.serialPrint " °C, Humidité: ")
    let dev := dev.emit (Event.serialPrintFloat humidity)
    let dev := dev.emit (Event.serialPrintln " %")
    (dev, temperature, humidity)

/-- Source function `readBatteryVoltage`: `(adcValue * 3.3) / 4095` is
evaluated in `double`, stored in a `float`, and doubled in `float`. -/
def readBatteryVoltage (dev : Device) (adcValue : Int) : Device × Flt :=
  let dev := dev.emit (Event.analogRead adcValue)
  let voltage := Flt.convert binary32
    (Flt.div binary64
      (Flt.mul binary64 (Flt.ofInt binary64 adcValue) (Flt.ofDecimal binary64 33 1))
      (Flt.ofInt binary64 4095))
  let batteryVoltage := Flt.mul binary32 voltage (Flt.ofInt binary32 2)
  let dev := dev.emit (Event.serialPrint "Tension de la batterie: ")
  let dev := dev.emit (Event.serialPrintFloat batteryVoltage)
  let dev := dev.emit (Event.serialPrintln " V")
  (dev, batteryVoltage)

/-- Source function `sendDataFrame`: the frame is printed for diagnostics,
then written to the outbound line. -/
def sendDataFrame (dev : Device) (dataFrame : String) : Device :=
  let dev := dev.emit (Event.serialPrintln ("Trame de données : " ++ dataFrame))
  let dev := dev.emit (Event.transmit dataFrame)
  dev

/-- Source function `displayTemperature`. -/
def displayTemperature (dev : Device) (temperature : Flt) : Device :=
  dev.emit (Event.displayTemperature temperature)

section Cycle

variable (castUndef : Flt → Int)

/-- Source function `loop`: one iteration on the hardware results `s`. -/
def loop (dev : Device) (s : Sample) : Device :=
  let dev := digitalWrite dev Level.LOW
  let dev := delay dev 3000
  let (dev, temperature, humidity) := readDHT22 dev s.rawTemperature s.rawHumidity
  let (dev, batteryVoltage) := readBatteryVoltage dev s.adcValue
  let dataFrame := createDataFrame castUndef temperature humidity batteryVoltage
  let dev := sendDataFrame dev dataFrame
  let dev := digitalWrite dev Level.HIGH
  let dev := displayTemperature dev temperature
  let dev := delay dev 10000
  dev

/-- The Arduino runtime: `setup` once, then `loop` once per sample. -/
def run (dev : Device) (samples : List Sample) : Device :=
  samples.foldl (loop castUndef) (setup dev)

end Cycle

/-! ## Auxiliary definitions used in the statements -/

/-- The operand of `static_cast<int>` in `toHexString`: `value` itself when
`decimalPlaces == 0`, else the `double` product `value * pow(10, decimalPlaces)`. -/
def scaled (value : Flt) (decimalPlaces : Int) : Flt :=
  if decimalPlaces = 0 then value else Flt.mul binary64 value (pow10 decimalPlaces)

/-- The result of `toHexString` on the inputs for which C++ defines the
conversion to `int`; `none` on the others. -/
def toHexStringDefined (value : Flt) (decimalPlaces : Int) : Option String :=
  match scaled value decimalPlaces with
  | Flt.fin q =>
    if -2 ^ 31 ≤ truncate q ∧ truncate q < 2 ^ 31 then some (sprintf04X (truncate q))
    else none
  | _ => none

/-- A concrete target: the saturating conversion of the soft-float runtime
(NaN gives 0, values beyond the range of `int` give the nearest bound). -/
def castSaturate : Flt → Int
  | Flt.nan => 0
  | Flt.inf true => -2 ^ 31
  | Flt.inf false => 2 ^ 31 - 1
  | Flt.fin q => if q < 0 then -2 ^ 31 else 2 ^ 31 - 1

/-- The upper-case hexadecimal digits. -/
def upperHexChars : List Char :=
  ['0', '1', '2', '3', '4', '5', '6', '7', '8', '9', 'A', 'B', 'C', 'D', 'E', 'F']

/-- The 4-digit, zero-padded, upper-case base-16 numeral of `n`, as the
specification words it: one digit per power of 16, most significant first. -/
def numeral4 (n : Nat) : String :=
  String.mk ([n / 4096 % 16, n / 256 % 16, n / 16 % 16, n % 16].map
    (fun i => upperHexChars.getD i '0'))

/-- The device at reset, before `setup` has run. -/
def Device.reset : Device := ⟨Level.LOW, []⟩

/-- The temperature and humidity `readDHT22` hands back for two raw results. -/
def dhtValues (rawTemperature rawHumidity : Flt) : Flt × Flt :=
  (readDHT22 Device.reset rawTemperature rawHumidity).2

/-- The voltage `readBatteryVoltage` returns for a raw ADC value. -/
def batteryVoltageOf (adcValue : Int) : Flt :=
  (readBatteryVoltage Device.reset adcValue).2

/-- The frames put on the outbound line, oldest first. -/
def transmitted : List Event → List String
  | [] => []
  | Event.transmit f :: es => f :: transmitted es
  | _ :: es => transmitted es

/-- Serial diagnostics (everything printed except the outbound line). -/
def Event.isDiagnostic : Event → Bool
  | Event.serialPrint _ => true
  | Event.serialPrintFloat _ => true
  | Event.serialPrintln _ => true
  | _ => false

/-- The finite values of a format: `m * 2^e` with a significand of at most
`prec` bits and an exponent between the subnormal grid and the top binade. -/
def Format.Representable (F : Format) (q : ℚ) : Prop :=
  ∃ m e : Int, |m| < 2 ^ F.prec ∧ F.emin - (F.prec - 1) ≤ e ∧
    e ≤ F.emax - (F.prec - 1) ∧ q = m * pow2 e

/-- Value of an upper-case hexadecimal digit character, if it is one. -/
def hexDigitValue (c : Char) : Option Nat :=
  if upperHexChars.indexOf c < 16 then some (upperHexChars.indexOf c) else none

/-- Value of a base-16 numeral read most significant digit first, starting
from the value `acc` of the digits already read. -/
def parseHexFrom (acc : Nat) : List Char → Option Nat
  | [] => some acc
  | c :: cs =>
    match hexDigitValue c with
    | some d => parseHexFrom (16 * acc + d) cs
    | none => none

/-- Value of a base-16 numeral. -/
def parseHex (cs : List Char) : Option Nat := parseHexFrom 0 cs

/-- The upper-case base-16 numeral of `m` (the single digit `0` for zero),
left-padded with zeros to at least `width` characters. -/
def hexNumeralPadded (width m : Nat) : String :=
  let ds := if m = 0 then ['0']
    else (Nat.digits 16 m).reverse.map (fun i => upperHexChars.getD i '0')
  String.mk (List.replicate (width - ds.length) '0' ++ ds)

/-- Replay of a log from the line level `level` and the time `waited` (ms of
`delay` since the line was last written): true when every read of the sensor
or of the ADC happens with the line LOW (enabled) and at least 3000 ms after
it was last written. -/
def readsPowered (level : Level) (waited : Nat) : List Event → Bool
  | [] => true
  | Event.digitalWrite l :: es => readsPowered l 0 es
  | Event.delay ms :: es => readsPowered level (waited + ms) es
  | Event.dhtReadTemperature _ :: es =>
    decide (level = Level.LOW) && decide (3000 ≤ waited) && readsPowered level waited es
  | Event.dhtReadHumidity _ :: es =>
    decide (level = Level.LOW) && decide (3000 ≤ waited) && readsPowered level waited es
  | Event.analogRead _ :: es =>
    decide (level = Level.LOW) && decide (3000 ≤ waited) && readsPowered level waited es
  | _ :: es => readsPowered level waited es

/-- Line level and waited time after replaying a log. -/
def replayState (level : Level) (waited : Nat) : List Event → Level × Nat
  | [] => (level, waited)
  | Event.digitalWrite l :: es => replayState l 0 es
  | Event.delay ms :: es => replayState level (waited + ms) es
  | _ :: es => replayState level waited es

/-- The quantity `(r / 4095 * 3.3) * 2` evaluated in the order the
specification words it, in the types of the code: the division and the
product in `double`, the result stored in a `float` and doubled in `float`. -/
def claimOrderVoltage (adcValue : Int) : Flt :=
  let voltage := Flt.convert binary32
    (Flt.mul binary64
      (Flt.div binary64 (Flt.ofInt binary64 adcValue) (Flt.ofInt binary64 4095))
      (Flt.ofDecimal binary64 33 1))
  Flt.mul binary32 voltage (Flt.ofInt binary32 2)

/-- Check, in integer arithmetic, for the raw value `r`, the shift `s` and
the significand `m`: every value within a relative distance of `2^(-50)` of
the voltage `r * 3.3 / 4095 = r * 11 / 13650`, multiplied by `2^s`, is at
least `2^23` and strictly within one half of `m`, and `m < 2^24`. -/
def sigCert (r s m : Nat) : Bool :=
  decide (2 * m * 13650 * 2 ^ 50 + 22 * r * 2 ^ s < 22 * r * 2 ^ s * 2 ^ 50 + 13650 * 2 ^ 50) &&
  decide (22 * r * 2 ^ s * 2 ^ 50 + 22 * r * 2 ^ s < 2 * m * 13650 * 2 ^ 50 + 13650 * 2 ^ 50) &&
  decide (2 ^ 23 * 13650 * 2 ^ 50 + 11 * r * 2 ^ s ≤ 11 * r * 2 ^ s * 2 ^ 50) &&
  decide (m < 2 ^ 24) && decide (s ≤ 40)

/-- Search, upward from the shift `s`, for the least shift that brings the
voltage of `r` to a 24-bit significand, and check the nearest significand
there with `sigCert`. -/
def sigSearch : Nat → Nat → Nat → Bool
  | 0, _, _ => false
  | fuel + 1, s, r =>
    if 2 ^ 23 * 13650 ≤ 11 * r * 2 ^ s then sigCert r s ((11 * r * 2 ^ s + 6825) / 13650)
    else sigSearch fuel (s + 1) r

/-! ## Rounding is the identity on representable values -/

theorem pow2_eq_zpow (e : Int) : pow2 e = (2 : ℚ) ^ e := by
  unfold pow2
  split
  · rename_i h
    conv_rhs => rw [← Int.toNat_of_nonneg h]
    rw [zpow_natCast]
  · rename_i h
    have h2 : e = -(((-e).toNat : Nat) : Int) := by omega
    conv_rhs => rw [h2]
    rw [zpow_neg, zpow_natCast, one_div]

theorem pow2_pos (e : Int) : 0 < pow2 e := by
  rw [pow2_eq_zpow]; positivity

theorem pow2_add (a b : Int) : pow2 (a + b) = pow2 a * pow2 b := by
  simp only [pow2_eq_zpow]
  exact zpow_add₀ (by norm_num) a b

theorem pow2_lt_iff (a b : Int) : pow2 a < pow2 b ↔ a < b := by
  simp only [pow2_eq_zpow]
  exact zpow_lt_zpow_iff_right₀ (by norm_num)

theorem pow2_le_iff (a b : Int) : pow2 a ≤ pow2 b ↔ a ≤ b := by
  simp only [pow2_eq_zpow]
  exact zpow_le_zpow_iff_right₀ (by norm_num)

theorem pow2_natCast (n : Nat) : pow2 (n : Int) = (2 : ℚ) ^ n := by
  rw [pow2_eq_zpow, zpow_natCast]

theorem log2Fuel_spec (fuel : Nat) : ∀ n : Nat, n ≤ fuel → n ≠ 0 →
    2 ^ log2Fuel fuel n ≤ n ∧ n < 2 ^ (log2Fuel fuel n + 1) := by
  induction fuel with
  | zero => intro n h0 h1; omega
  | succ k ih =>
    intro n hn h0
    unfold log2Fuel
    by_cases h2 : 2 ≤ n
    · rw [if_pos h2]
      obtain ⟨i1, i2⟩ := ih (n / 2) (by omega) (by omega)
      constructor
      · rw [pow_succ]; omega
      · rw [pow_succ]; omega
    · rw [if_neg h2]
      constructor
      · simp; omega
      · simp; omega

theorem ilog2_le (n : Nat) (h : n ≠ 0) : 2 ^ ilog2 n ≤ n :=
  (log2Fuel_spec n n (le_refl n) h).1

theorem lt_ilog2 (n : Nat) (h : n ≠ 0) : n < 2 ^ (ilog2 n + 1) :=
  (log2Fuel_spec n n (le_refl n) h).2

/-- Lower bound of the binade: `2^(binade q) ≤ |q|` for non-zero `q`. -/
theorem pow2_binade_le (q : ℚ) (hq : q ≠ 0) : pow2 (binade q) ≤ |q| := by
  unfold binade
  simp only
  split
  · rename_i h; exact h
  · have hn : q.num.natAbs ≠ 0 := by
      simpa using hq
    have h1 : 2 ^ ilog2 q.num.natAbs ≤ q.num.natAbs := ilog2_le _ hn
    have h2 : q.den < 2 ^ (ilog2 q.den + 1) := lt_ilog2 _ q.den_nz
    have hd : (0 : ℚ) < q.den := by exact_mod_cast q.den_pos
    have habs : |q| = (q.num.natAbs : ℚ) / q.den := by
      conv_lhs => rw [← Rat.num_div_den q]
      rw [abs_div, Nat.abs_cast, Nat.cast_natAbs, Int.cast_abs]
    rw [habs, le_div_iff₀ hd]
    have e1 : pow2 ((ilog2 q.num.natAbs : Int) - (ilog2 q.den : Int) - 1)
        * pow2 ((ilog2 q.den + 1 : Nat) : Int) = pow2 (ilog2 q.num.natAbs : Int) := by
      rw [← pow2_add]; congr 1; push_cast; ring
    have h1q : pow2 (ilog2 q.num.natAbs : Int) ≤ (q.num.natAbs : ℚ) := by
      rw [pow2_natCast]; exact_mod_cast h1
    have h2q : (q.den : ℚ) ≤ pow2 ((ilog2 q.den + 1 : Nat) : Int) := by
      rw [pow2_natCast]; exact_mod_cast h2.le
    calc pow2 ((ilog2 q.num.natAbs : Int) - (ilog2 q.den : Int) - 1) * (q.den : ℚ)
        ≤ pow2 ((ilog2 q.num.natAbs : Int) - (ilog2 q.den : Int) - 1)
            * pow2 ((ilog2 q.den + 1 : Nat) : Int) :=
          mul_le_mul_of_nonneg_left h2q (pow2_pos _).le
      _ = pow2 (ilog2 q.num.natAbs : Int) := e1
      _ ≤ (q.num.natAbs : ℚ) := h1q

theorem roundHalfEven_intCast (k : Int) : roundHalfEven (k : ℚ) = k := by
  unfold roundHalfEven
  have hf : Rat.floor (k : ℚ) = k := by
    show ⌊(k : ℚ)⌋ = k
    exact Int.floor_intCast k
  simp only [hf, sub_self]
  norm_num

/-- Rounding returns a representable value unchanged. -/
theorem Format.round_of_representable (F : Format) (q : ℚ)
    (h : F.Representable q) : F.round q = Flt.fin q := by
  obtain ⟨m, e0, hm, hlo, hhi, rfl⟩ := h
  unfold Format.round
  by_cases hq : (m : ℚ) * pow2 e0 = 0
  · simp [hq]
  · rw [if_neg hq]
    simp only
    have hmq : |(m : ℚ)| < 2 ^ F.prec := by exact_mod_cast hm
    have habs : |(m : ℚ) * pow2 e0| = |(m : ℚ)| * pow2 e0 := by
      rw [abs_mul, abs_of_pos (pow2_pos _)]
    have hlt : |(m : ℚ) * pow2 e0| < pow2 ((F.prec : Int) + e0) := by
      rw [habs, pow2_add, pow2_natCast]
      exact mul_lt_mul_of_pos_right hmq (pow2_pos _)
    have hb : binade ((m : ℚ) * pow2 e0) - ((F.prec : Int) - 1) ≤ e0 := by
      have h1 := lt_of_le_of_lt (pow2_binade_le _ hq) hlt
      rw [pow2_lt_iff] at h1
      omega
    have hk : max (binade ((m : ℚ) * pow2 e0)) F.emin - ((F.prec : Int) - 1) ≤ e0 := by
      rcases max_cases (binade ((m : ℚ) * pow2 e0)) F.emin with ⟨h1, _⟩ | ⟨h1, _⟩ <;>
        rw [h1] <;> omega
    generalize max (binade ((m : ℚ) * pow2 e0)) F.emin - ((F.prec : Int) - 1) = g at hk
    obtain ⟨j, hj⟩ : ∃ j : Nat, e0 = g + j := ⟨(e0 - g).toNat, by omega⟩
    have hdiv : (m : ℚ) * pow2 e0 / pow2 g = ((m * 2 ^ j : Int) : ℚ) := by
      rw [hj, pow2_add, pow2_natCast]
      have := (pow2_pos g).ne'
      field_simp
      ring
    rw [hdiv, roundHalfEven_intCast]
    have hr : ((m * 2 ^ j : Int) : ℚ) * pow2 g = (m : ℚ) * pow2 e0 := by
      rw [← hdiv]
      have := (pow2_pos g).ne'
      field_simp
    rw [hr]
    have hov : ¬ pow2 (F.emax + 1) ≤ |(m : ℚ) * pow2 e0| := by
      rw [not_le]
      refine lt_of_lt_of_le hlt ?_
      rw [pow2_le_iff]
      omega
    rw [if_neg hov]

theorem pow2_natCast_mul_five (n : Nat) : (10 : ℚ) ^ n = ((5 ^ n : Int) : ℚ) * pow2 (n : Int) := by
  rw [pow2_natCast]
  push_cast
  rw [← mul_pow]
  norm_num

/-- For `0 ≤ d ≤ 22` the power `10^d` is a `double`, so `pow(10, d)` is exact. -/
theorem pow10_exact (d : Int) (h0 : 0 ≤ d) (h1 : d ≤ 22) :
    pow10 d = Flt.fin ((10 : ℚ) ^ d.toNat) := by
  unfold pow10
  rw [if_pos h0]
  apply Format.round_of_representable
  refine ⟨5 ^ d.toNat, (d.toNat : Int), ?_, ?_, ?_, pow2_natCast_mul_five _⟩
  · have h5 : (5 : Int) ^ d.toNat ≤ 5 ^ 22 :=
      pow_le_pow_right₀ (by norm_num) (by omega)
    rw [abs_of_nonneg (by positivity)]
    simp only [binary64]
    exact lt_of_le_of_lt h5 (by norm_num)
  · simp only [binary64, Format.emin]; omega
  · simp only [binary64]; omega

/-- For a `float` value and `0 ≤ d ≤ 12` the `double` product
`value * pow(10, d)` is exact: no rounding takes place before truncation. -/
theorem scaled_exact (q : ℚ) (d : Int) (hq : binary32.Representable q)
    (h0 : 0 ≤ d) (h1 : d ≤ 12) :
    scaled (Flt.fin q) d = Flt.fin (q * (10 : ℚ) ^ d.toNat) := by
  unfold scaled
  by_cases hd : d = 0
  · simp [hd]
  · rw [if_neg hd, pow10_exact d h0 (by omega)]
    show binary64.round (q * (10 : ℚ) ^ d.toNat) = _
    apply Format.round_of_representable
    obtain ⟨m, e, hm, hlo, hhi, rfl⟩ := hq
    simp only [binary32, Format.emin] at hm hlo hhi
    refine ⟨m * 5 ^ d.toNat, e + (d.toNat : Int), ?_, ?_, ?_, ?_⟩
    · have h5 : (5 : Int) ^ d.toNat ≤ 5 ^ 12 :=
        pow_le_pow_right₀ (by norm_num) (by omega)
      have h5p : (0 : Int) < 5 ^ d.toNat := by positivity
      rw [abs_mul, abs_of_pos h5p]
      simp only [binary64]
      have hm0 : (0 : Int) ≤ |m| := abs_nonneg m
      calc |m| * 5 ^ d.toNat ≤ |m| * 5 ^ 12 := by nlinarith
        _ < 2 ^ 24 * 5 ^ 12 := by nlinarith
        _ < 2 ^ 53 := by norm_num
    · simp only [binary64, Format.emin]; omega
    · simp only [binary64]; omega
    · rw [pow2_natCast_mul_five, pow2_add]
      push_cast
      ring

/-! ## Rounding error -/

/-- Upper bound of the binade: `|q| < 2^(binade q + 1)` for non-zero `q`. -/
theorem lt_pow2_binade (q : ℚ) (hq : q ≠ 0) : |q| < pow2 (binade q + 1) := by
  unfold binade
  simp only
  split
  · have hn : q.num.natAbs ≠ 0 := by
      simpa using hq
    have h1 : q.num.natAbs < 2 ^ (ilog2 q.num.natAbs + 1) := lt_ilog2 _ hn
    have h2 : 2 ^ ilog2 q.den ≤ q.den := ilog2_le _ q.den_nz
    have hd : (0 : ℚ) < q.den := by exact_mod_cast q.den_pos
    have habs : |q| = (q.num.natAbs : ℚ) / q.den := by
      conv_lhs => rw [← Rat.num_div_den q]
      rw [abs_div, Nat.abs_cast, Nat.cast_natAbs, Int.cast_abs]
    rw [habs, div_lt_iff₀ hd]
    have e1 : pow2 ((ilog2 q.num.natAbs : Int) - (ilog2 q.den : Int) + 1)
        * pow2 ((ilog2 q.den : Nat) : Int) = pow2 ((ilog2 q.num.natAbs + 1 : Nat) : Int) := by
      rw [← pow2_add]; congr 1; push_cast; ring
    have h1q : (q.num.natAbs : ℚ) < pow2 ((ilog2 q.num.natAbs + 1 : Nat) : Int) := by
      rw [pow2_natCast]; exact_mod_cast h1
    have h2q : pow2 ((ilog2 q.den : Nat) : Int) ≤ (q.den : ℚ) := by
      rw [pow2_natCast]; exact_mod_cast h2
    calc (q.num.natAbs : ℚ) < pow2 ((ilog2 q.num.natAbs + 1 : Nat) : Int) := h1q
      _ = pow2 ((ilog2 q.num.natAbs : Int) - (ilog2 q.den : Int) + 1)
            * pow2 ((ilog2 q.den : Nat) : Int) := e1.symm
      _ ≤ pow2 ((ilog2 q.num.natAbs : Int) - (ilog2 q.den : Int) + 1) * (q.den : ℚ) :=
          mul_le_mul_of_nonneg_left h2q (pow2_pos _).le
  · rename_i h
    rw [not_le] at h
    have e : (ilog2 q.num.natAbs : Int) - (ilog2 q.den : Int) - 1 + 1
        = (ilog2 q.num.natAbs : Int) - (ilog2 q.den : Int) := by ring
    rw [e]
    exact h

/-- The nearest integer is within one half. -/
theorem roundHalfEven_error (x : ℚ) : |(roundHalfEven x : ℚ) - x| ≤ 1 / 2 := by
  unfold roundHalfEven
  have hf : Rat.floor x = ⌊x⌋ := rfl
  simp only [hf]
  have h1 : (⌊x⌋ : ℚ) ≤ x := Int.floor_le x
  have h2 : x < (⌊x⌋ : ℚ) + 1 := Int.lt_floor_add_one x
  rw [abs_le]
  split
  · constructor <;> linarith
  · split
    · push_cast; constructor <;> linarith
    · split
      · constructor <;> linarith
      · push_cast; constructor <;> linarith

/-- Rounding a value of the normal range moves it by at most half a unit in
the last place: a relative error of at most `2^(-prec)`. -/
theorem Format.round_error (F : Format) (q : ℚ) (hp : 1 ≤ F.prec)
    (hlo : pow2 F.emin ≤ |q|) (hhi : |q| ≤ pow2 F.emax) :
    ∃ r : ℚ, F.round q = Flt.fin r ∧ |r - q| ≤ |q| * pow2 (-(F.prec : Int)) := by
  have hq : q ≠ 0 := by
    intro h
    rw [h, abs_zero] at hlo
    exact absurd hlo (not_le.mpr (pow2_pos _))
  have hb : F.emin ≤ binade q := by
    have h1 := lt_of_le_of_lt hlo (lt_pow2_binade q hq)
    rw [pow2_lt_iff] at h1
    omega
  have herr : |(roundHalfEven (q / pow2 (binade q - ((F.prec : Int) - 1))) : ℚ)
      * pow2 (binade q - ((F.prec : Int) - 1)) - q| ≤ |q| * pow2 (-(F.prec : Int)) := by
    have hu := pow2_pos (binade q - ((F.prec : Int) - 1))
    have e1 : (roundHalfEven (q / pow2 (binade q - ((F.prec : Int) - 1))) : ℚ)
        * pow2 (binade q - ((F.prec : Int) - 1)) - q
        = ((roundHalfEven (q / pow2 (binade q - ((F.prec : Int) - 1))) : ℚ)
            - q / pow2 (binade q - ((F.prec : Int) - 1)))
          * pow2 (binade q - ((F.prec : Int) - 1)) := by
      field_simp
    rw [e1, abs_mul, abs_of_pos hu]
    have e2 : pow2 (binade q - ((F.prec : Int) - 1))
        = 2 * (pow2 (binade q) * pow2 (-(F.prec : Int))) := by
      rw [← pow2_add]
      have : (2 : ℚ) = pow2 1 := by norm_num [pow2]
      rw [this, ← pow2_add]
      congr 1
      ring
    have h3 := roundHalfEven_error (q / pow2 (binade q - ((F.prec : Int) - 1)))
    have h4 := pow2_binade_le q hq
    have h5 := pow2_pos (-(F.prec : Int))
    calc |(roundHalfEven (q / pow2 (binade q - ((F.prec : Int) - 1))) : ℚ)
          - q / pow2 (binade q - ((F.prec : Int) - 1))|
          * pow2 (binade q - ((F.prec : Int) - 1))
        ≤ 1 / 2 * pow2 (binade q - ((F.prec : Int) - 1)) :=
          mul_le_mul_of_nonneg_right h3 hu.le
      _ = pow2 (binade q) * pow2 (-(F.prec : Int)) := by rw [e2]; ring
      _ ≤ |q| * pow2 (-(F.prec : Int)) := mul_le_mul_of_nonneg_right h4 h5.le
  refine ⟨(roundHalfEven (q / pow2 (binade q - ((F.prec : Int) - 1))) : ℚ)
      * pow2 (binade q - ((F.prec : Int) - 1)), ?_, herr⟩
  unfold Format.round
  rw [if_neg hq]
  simp only
  rw [max_eq_left hb]
  rw [if_neg]
  rw [not_le]
  have h6 : pow2 (-(F.prec : Int)) ≤ 1 / 2 := by
    have : (1 / 2 : ℚ) = pow2 (-1) := by norm_num [pow2]
    rw [this, pow2_le_iff]
    omega
  have h7 : pow2 (F.emax + 1) = 2 * pow2 F.emax := by
    have h1 : pow2 1 = 2 := by norm_num [pow2]
    rw [pow2_add, h1, mul_comm]
  have h8 := abs_sub_abs_le_abs_sub
    ((roundHalfEven (q / pow2 (binade q - ((F.prec : Int) - 1))) : ℚ)
      * pow2 (binade q - ((F.prec : Int) - 1))) q
  have h9 : |q| * pow2 (-(F.prec : Int)) ≤ |q| * (1 / 2) :=
    mul_le_mul_of_nonneg_left h6 (abs_nonneg q)
  have h10 : 0 < |q| := abs_pos.mpr hq
  rw [h7]
  linarith

theorem pow2_neg_natCast (n : Nat) : pow2 (-(n : Int)) = 1 / (2 : ℚ) ^ n := by
  rw [pow2_eq_zpow, zpow_neg, zpow_natCast, one_div]

/-- Relative error of a rounding to `double`, for a positive value of moderate size. -/
theorem round64_rel (q : ℚ) (h1 : 1 / 2 ^ 20 ≤ q) (h2 : q ≤ 2 ^ 20) :
    ∃ r : ℚ, binary64.round q = Flt.fin r ∧
      q * (1 - 1 / 2 ^ 53) ≤ r ∧ r ≤ q * (1 + 1 / 2 ^ 53) := by
  have hq : 0 < q := lt_of_lt_of_le (by norm_num) h1
  have hlo : pow2 binary64.emin ≤ |q| := by
    rw [abs_of_pos hq]
    refine le_trans ?_ h1
    have : (1 / 2 ^ 20 : ℚ) = pow2 (-20) := (pow2_neg_natCast 20).symm
    rw [this, pow2_le_iff]
    simp only [binary64, Format.emin]; omega
  have hhi : |q| ≤ pow2 binary64.emax := by
    rw [abs_of_pos hq]
    refine le_trans h2 ?_
    have : (2 ^ 20 : ℚ) = pow2 20 := (pow2_natCast 20).symm
    rw [this, pow2_le_iff]
    simp only [binary64]; omega
  obtain ⟨r, hr, he⟩ := binary64.round_error q (by simp [binary64]) hlo hhi
  refine ⟨r, hr, ?_⟩
  have hp : pow2 (-(binary64.prec : Int)) = 1 / 2 ^ 53 := pow2_neg_natCast 53
  rw [abs_of_pos hq, hp, abs_le] at he
  constructor <;> linarith [he.1, he.2]

/-- Relative error of a rounding to `float`, for a positive value of moderate size. -/
theorem round32_rel (q : ℚ) (h1 : 1 / 2 ^ 20 ≤ q) (h2 : q ≤ 2 ^ 20) :
    ∃ r : ℚ, binary32.round q = Flt.fin r ∧
      q * (1 - 1 / 2 ^ 24) ≤ r ∧ r ≤ q * (1 + 1 / 2 ^ 24) := by
  have hq : 0 < q := lt_of_lt_of_le (by norm_num) h1
  have hlo : pow2 binary32.emin ≤ |q| := by
    rw [abs_of_pos hq]
    refine le_trans ?_ h1
    have : (1 / 2 ^ 20 : ℚ) = pow2 (-20) := (pow2_neg_natCast 20).symm
    rw [this, pow2_le_iff]
    simp only [binary32, Format.emin]; omega
  have hhi : |q| ≤ pow2 binary32.emax := by
    rw [abs_of_pos hq]
    refine le_trans h2 ?_
    have : (2 ^ 20 : ℚ) = pow2 20 := (pow2_natCast 20).symm
    rw [this, pow2_le_iff]
    simp only [binary32]; omega
  obtain ⟨r, hr, he⟩ := binary32.round_error q (by simp [binary32]) hlo hhi
  refine ⟨r, hr, ?_⟩
  have hp : pow2 (-(binary32.prec : Int)) = 1 / 2 ^ 24 := pow2_neg_natCast 24
  rw [abs_of_pos hq, hp, abs_le] at he
  constructor <;> linarith [he.1, he.2]

/-- The battery voltage computed from a raw value in `1..4095` is finite and
within a relative error of `2^(-22)` of `r / 4095 * 3.3 * 2`. -/
theorem batteryVoltageOf_approx_pos (r : Int) (h0 : 1 ≤ r) (h1 : r ≤ 4095) :
    ∃ v : ℚ, batteryVoltageOf r = Flt.fin v ∧
      (r : ℚ) / 4095 * (33 / 10) * 2 * (1 - 1 / 2 ^ 22) ≤ v ∧
      v ≤ (r : ℚ) / 4095 * (33 / 10) * 2 * (1 + 1 / 2 ^ 22) := by
  have hr0 : (1 : ℚ) ≤ r := by exact_mod_cast h0
  have hr1 : (r : ℚ) ≤ 4095 := by exact_mod_cast h1
  have hc : Flt.ofDecimal binary64 33 1 = Flt.fin (3715469692580659 / 1125899906842624) := by
    decide!
  have hd : Flt.ofInt binary64 4095 = Flt.fin 4095 := by decide!
  have h2 : Flt.ofInt binary32 2 = Flt.fin 2 := by decide!
  have hi : Flt.ofInt binary64 r = Flt.fin r := by
    apply Format.round_of_representable
    refine ⟨r, 0, ?_, ?_, ?_, ?_⟩
    · simp only [binary64]; rw [abs_of_nonneg (by omega)]; omega
    · simp only [binary64, Format.emin]; omega
    · simp only [binary64]; omega
    · norm_num [pow2]
  obtain ⟨p1, e1, l1, u1⟩ := round64_rel ((r : ℚ) * (3715469692580659 / 1125899906842624))
    (by linarith) (by norm_num; linarith)
  obtain ⟨p2, e2, l2, u2⟩ := round64_rel (p1 / 4095) (by linarith) (by norm_num; linarith)
  obtain ⟨v, e3, l3, u3⟩ := round32_rel p2 (by linarith) (by norm_num; linarith)
  obtain ⟨b, e4, l4, u4⟩ := round32_rel (v * 2) (by linarith) (by norm_num; linarith)
  refine ⟨b, ?_, ?_, ?_⟩
  · unfold batteryVoltageOf readBatteryVoltage
    simp only [hc, hd, h2, hi, Flt.mul, e1, Flt.div, Flt.convert]
    rw [if_neg (by norm_num), e2]
    simp only [Flt.convert, e3, Flt.mul, e4]
  · linarith
  · linarith

/-! ## Rounding to a certified neighbour -/

theorem roundHalfEven_eq_of_near (x : ℚ) (m : Int) (h1 : (m : ℚ) - 1 / 2 < x)
    (h2 : x < (m : ℚ) + 1 / 2) : roundHalfEven x = m := by
  unfold roundHalfEven
  have hf : Rat.floor x = ⌊x⌋ := rfl
  simp only [hf]
  by_cases hx : (m : ℚ) ≤ x
  · have hfl : ⌊x⌋ = m := Int.floor_eq_iff.mpr ⟨hx, by linarith⟩
    rw [hfl, if_pos (by linarith)]
  · rw [not_le] at hx
    have hfl : ⌊x⌋ = m - 1 := Int.floor_eq_iff.mpr ⟨by push_cast; linarith, by push_cast; linarith⟩
    rw [hfl, if_neg (by push_cast; linarith), if_pos (by push_cast; linarith)]
    ring

/-- A value `x * 2^e` whose significand `x` lies in the top binade and
strictly within one half of the integer `m` rounds to `m * 2^e`. -/
theorem Format.round_scaled (F : Format) (x : ℚ) (m e : Int) (hp : 1 ≤ F.prec)
    (hx0 : (2 : ℚ) ^ (F.prec - 1) ≤ x) (h1 : (m : ℚ) - 1 / 2 < x)
    (h2 : x < (m : ℚ) + 1 / 2) (hm : m < 2 ^ F.prec)
    (he1 : F.emin ≤ e + ((F.prec : Int) - 1)) (he2 : e + ((F.prec : Int) - 1) ≤ F.emax) :
    F.round (x * pow2 e) = Flt.fin ((m : ℚ) * pow2 e) := by
  have hpe := pow2_pos e
  have hxpos : 0 < x := lt_of_lt_of_le (by positivity) hx0
  have hq : x * pow2 e ≠ 0 := (mul_pos hxpos hpe).ne'
  have habs : |x * pow2 e| = x * pow2 e := abs_of_pos (mul_pos hxpos hpe)
  have hmq : (m : ℚ) ≤ 2 ^ F.prec - 1 := by
    have : m ≤ 2 ^ F.prec - 1 := by omega
    exact_mod_cast this
  have hxlt : x < 2 ^ F.prec := by linarith
  have e23 : pow2 (e + ((F.prec : Int) - 1)) = 2 ^ (F.prec - 1) * pow2 e := by
    have h : ((F.prec : Int) - 1) = ((F.prec - 1 : Nat) : Int) := by omega
    rw [add_comm, pow2_add, h, pow2_natCast]
  have e24 : pow2 (e + (F.prec : Int)) = 2 ^ F.prec * pow2 e := by
    rw [add_comm, pow2_add, pow2_natCast]
  have hb : binade (x * pow2 e) = e + ((F.prec : Int) - 1) := by
    have a1 := pow2_binade_le _ hq
    have a2 := lt_pow2_binade _ hq
    rw [habs] at a1 a2
    have b1 : pow2 (e + ((F.prec : Int) - 1)) ≤ x * pow2 e := by
      rw [e23]; exact mul_le_mul_of_nonneg_right hx0 hpe.le
    have b2 : x * pow2 e < pow2 (e + (F.prec : Int)) := by
      rw [e24]; exact mul_lt_mul_of_pos_right hxlt hpe
    have c1 := lt_of_le_of_lt a1 b2
    have c2 := lt_of_le_of_lt b1 a2
    rw [pow2_lt_iff] at c1 c2
    omega
  unfold Format.round
  rw [if_neg hq]
  simp only
  rw [hb, max_eq_left he1]
  have hu : e + ((F.prec : Int) - 1) - ((F.prec : Int) - 1) = e := by ring
  rw [hu]
  have hdiv : x * pow2 e / pow2 e = x := by field_simp
  rw [hdiv, roundHalfEven_eq_of_near x m h1 h2]
  rw [if_neg]
  rw [not_le]
  have hm0 : (0 : ℚ) < m := by
    have : (1 : ℚ) ≤ 2 ^ (F.prec - 1) := one_le_pow₀ (by norm_num)
    have h3 : (1 / 2 : ℚ) < m := by linarith
    have h4 : (0 : Int) < m := by
      by_contra hc
      have : (m : ℚ) ≤ 0 := by exact_mod_cast (not_lt.mp hc)
      linarith
    exact_mod_cast h4
  rw [abs_of_pos (mul_pos hm0 hpe)]
  calc (m : ℚ) * pow2 e < 2 ^ F.prec * pow2 e := by
        apply mul_lt_mul_of_pos_right _ hpe
        linarith
    _ = pow2 (e + (F.prec : Int)) := e24.symm
    _ ≤ pow2 (F.emax + 1) := by rw [pow2_le_iff]; omega

/-! ## The battery voltage is correctly rounded -/

theorem sigSearch_sound (fuel : Nat) : ∀ s r : Nat, sigSearch fuel s r = true →
    ∃ s1 m : Nat, sigCert r s1 m = true := by
  induction fuel with
  | zero => intro s r h; simp [sigSearch] at h
  | succ k ih =>
    intro s r h
    unfold sigSearch at h
    split at h
    · exact ⟨s, _, h⟩
    · exact ih _ _ h

theorem sigSearch_all :
    (List.range 4096).all (fun r => r == 0 || sigSearch 14 22 r) = true := by
  decide!

theorem sigCert_exists (r : Nat) (h0 : 1 ≤ r) (h1 : r ≤ 4095) :
    ∃ s m : Nat, sigCert r s m = true := by
  have h := List.all_eq_true.mp sigSearch_all r (List.mem_range.mpr (by omega))
  simp only [Bool.or_eq_true, beq_iff_eq] at h
  rcases h with h | h
  · omega
  · exact sigSearch_sound 14 22 r h

theorem sigCert_spec (r s m : Nat) (h : sigCert r s m = true) :
    (m : ℚ) - 1 / 2 < (r : ℚ) * 11 / 13650 * (1 - 1 / 2 ^ 50) * 2 ^ s ∧
    (r : ℚ) * 11 / 13650 * (1 + 1 / 2 ^ 50) * 2 ^ s < (m : ℚ) + 1 / 2 ∧
    (2 : ℚ) ^ 23 ≤ (r : ℚ) * 11 / 13650 * (1 - 1 / 2 ^ 50) * 2 ^ s ∧
    m < 2 ^ 24 ∧ s ≤ 40 := by
  unfold sigCert at h
  simp only [Bool.and_eq_true, decide_eq_true_eq] at h
  obtain ⟨⟨⟨⟨h1, h2⟩, h3⟩, h4⟩, h5⟩ := h
  have q1 : (2 : ℚ) * m * 13650 * 2 ^ 50 + 22 * r * 2 ^ s
      < 22 * r * 2 ^ s * 2 ^ 50 + 13650 * 2 ^ 50 := by exact_mod_cast h1
  have q2 : (22 : ℚ) * r * 2 ^ s * 2 ^ 50 + 22 * r * 2 ^ s
      < 2 * m * 13650 * 2 ^ 50 + 13650 * 2 ^ 50 := by exact_mod_cast h2
  have q3 : (2 : ℚ) ^ 23 * 13650 * 2 ^ 50 + 11 * r * 2 ^ s
      ≤ 11 * r * 2 ^ s * 2 ^ 50 := by exact_mod_cast h3
  generalize (2 : ℚ) ^ s = T at q1 q2 q3 ⊢
  refine ⟨?_, ?_, ?_, h4, h5⟩
  · norm_num at q1 ⊢; linarith
  · norm_num at q2 ⊢; linarith
  · norm_num at q3 ⊢; linarith

/-- Any value within a relative distance of `2^(-50)` of the voltage
`r * 11 / 13650` rounds, as a `float`, to the certified significand. -/
theorem round32_of_cert (r s m : Nat) (p : ℚ) (h : sigCert r s m = true)
    (hl : (r : ℚ) * 11 / 13650 * (1 - 1 / 2 ^ 50) ≤ p)
    (hu : p ≤ (r : ℚ) * 11 / 13650 * (1 + 1 / 2 ^ 50)) :
    binary32.round p = Flt.fin ((m : ℚ) * pow2 (-(s : Int))) := by
  obtain ⟨a, b, c, hm, hs⟩ := sigCert_spec r s m h
  have hT : (0 : ℚ) < 2 ^ s := by positivity
  have hl2 := mul_le_mul_of_nonneg_right hl hT.le
  have hu2 := mul_le_mul_of_nonneg_right hu hT.le
  have hp : p = p * 2 ^ s * pow2 (-(s : Int)) := by
    rw [pow2_neg_natCast]
    field_simp
  have key := Format.round_scaled binary32 (p * 2 ^ s) (m : Int) (-(s : Int)) (by decide)
    (by show (2 : ℚ) ^ 23 ≤ p * 2 ^ s; linarith)
    (by push_cast; linarith) (by push_cast; linarith)
    (by show ((m : Nat) : Int) < 2 ^ 24; exact_mod_cast hm)
    (by simp only [binary32, Format.emin]; omega)
    (by simp only [binary32]; omega)
  rw [← hp] at key
  rw [key]
  push_cast
  rfl

theorem ofInt64_small (r : Int) (h0 : 0 ≤ r) (h1 : r ≤ 4095) :
    Flt.ofInt binary64 r = Flt.fin r := by
  apply Format.round_of_representable
  refine ⟨r, 0, ?_, ?_, ?_, ?_⟩
  · simp only [binary64]; rw [abs_of_nonneg h0]; omega
  · simp only [binary64, Format.emin]; omega
  · simp only [binary64]; omega
  · norm_num [pow2]

/-- The `double` value `(r * 3.3) / 4095` of the code is within a relative
distance of `2^(-50)` of the exact `r * 11 / 13650`. -/
theorem codeDouble_bounds (r : Int) (h0 : 1 ≤ r) (h1 : r ≤ 4095) :
    ∃ p : ℚ,
      Flt.div binary64
        (Flt.mul binary64 (Flt.ofInt binary64 r) (Flt.ofDecimal binary64 33 1))
        (Flt.ofInt binary64 4095) = Flt.fin p ∧
      (r : ℚ) * 11 / 13650 * (1 - 1 / 2 ^ 50) ≤ p ∧
      p ≤ (r : ℚ) * 11 / 13650 * (1 + 1 / 2 ^ 50) := by
  have hr0 : (1 : ℚ) ≤ r := by exact_mod_cast h0
  have hr1 : (r : ℚ) ≤ 4095 := by exact_mod_cast h1
  have hc : Flt.ofDecimal binary64 33 1 = Flt.fin (3715469692580659 / 1125899906842624) := by
    decide!
  have hd : Flt.ofInt binary64 4095 = Flt.fin 4095 := by decide!
  obtain ⟨p1, e1, l1, u1⟩ := round64_rel ((r : ℚ) * (3715469692580659 / 1125899906842624))
    (by linarith) (by norm_num; linarith)
  obtain ⟨p2, e2, l2, u2⟩ := round64_rel (p1 / 4095) (by linarith) (by norm_num; linarith)
  refine ⟨p2, ?_, by linarith, by linarith⟩
  rw [hc, hd, ofInt64_small r (by omega) h1]
  simp only [Flt.mul, e1, Flt.div]
  rw [if_neg (by norm_num), e2]

/-- The `double` value `r / 4095 * 3.3` of the specification's order is within
a relative distance of `2^(-50)` of the exact `r * 11 / 13650`. -/
theorem claimDouble_bounds (r : Int) (h0 : 1 ≤ r) (h1 : r ≤ 4095) :
    ∃ p : ℚ,
      Flt.mul binary64
        (Flt.div binary64 (Flt.ofInt binary64 r) (Flt.ofInt binary64 4095))
        (Flt.ofDecimal binary64 33 1) = Flt.fin p ∧
      (r : ℚ) * 11 / 13650 * (1 - 1 / 2 ^ 50) ≤ p ∧
      p ≤ (r : ℚ) * 11 / 13650 * (1 + 1 / 2 ^ 50) := by
  have hr0 : (1 : ℚ) ≤ r := by exact_mod_cast h0
  have hr1 : (r : ℚ) ≤ 4095 := by exact_mod_cast h1
  have hc : Flt.ofDecimal binary64 33 1 = Flt.fin (3715469692580659 / 1125899906842624) := by
    decide!
  have hd : Flt.ofInt binary64 4095 = Flt.fin 4095 := by decide!
  obtain ⟨p1, e1, l1, u1⟩ := round64_rel ((r : ℚ) / 4095)
    (by rw [le_div_iff₀ (by norm_num)]; linarith) (by rw [div_le_iff₀ (by norm_num)]; linarith)
  have hp1 : p1 ≤ 2 := by
    have : (r : ℚ) / 4095 ≤ 1 := by rw [div_le_iff₀ (by norm_num)]; linarith
    nlinarith
  have hp0 : 1 / 8190 ≤ p1 := by
    have : (1 : ℚ) / 4095 ≤ (r : ℚ) / 4095 := by
      apply div_le_div_of_nonneg_right hr0 (by norm_num)
    nlinarith
  obtain ⟨p2, e2, l2, u2⟩ := round64_rel (p1 * (3715469692580659 / 1125899906842624))
    (by linarith) (by norm_num; linarith)
  have hy : (r : ℚ) * 11 / 13650 = (r : ℚ) / 4095 * (33 / 10) := by ring
  refine ⟨p2, ?_, ?_, ?_⟩
  · rw [hc, hd, ofInt64_small r (by omega) h1]
    simp only [Flt.div]
    rw [if_neg (by norm_num), e1]
    simp only [Flt.mul, e2]
  · rw [hy]; generalize (r : ℚ) / 4095 = z at l1 u1 hp0 hp1 ⊢; linarith
  · rw [hy]; generalize (r : ℚ) / 4095 = z at l1 u1 hp0 hp1 ⊢; linarith

/-- Doubling a `float` whose significand is certified is exact. -/
theorem double32_exact (s m : Nat) (hm : m < 2 ^ 24) (hs : s ≤ 40) :
    Flt.mul binary32 (Flt.fin ((m : ℚ) * pow2 (-(s : Int)))) (Flt.ofInt binary32 2)
      = Flt.fin ((m : ℚ) * pow2 (1 - (s : Int))) := by
  have h2 : Flt.ofInt binary32 2 = Flt.fin 2 := by decide!
  rw [h2]
  simp only [Flt.mul]
  have e : (m : ℚ) * pow2 (-(s : Int)) * 2 = (m : ℚ) * pow2 (1 - (s : Int)) := by
    have h1 : pow2 1 = 2 := by norm_num [pow2]
    rw [sub_eq_add_neg, pow2_add, h1]
    ring
  rw [e]
  apply Format.round_of_representable
  refine ⟨m, 1 - s, ?_, ?_, ?_, by push_cast; rfl⟩
  · simp only [binary32]
    rw [abs_of_nonneg (by positivity)]
    exact_mod_cast hm
  · simp only [binary32, Format.emin]; omega
  · simp only [binary32]; omega

/-- The exact voltage `r / 4095 * 3.3 * 2` rounds, as a `float`, to twice the
certified significand. -/
theorem exactVoltage_round (r s m : Nat) (h : sigCert r s m = true) (h0 : 1 ≤ r) :
    binary32.round ((r : ℚ) / 4095 * (33 / 10) * 2)
      = Flt.fin ((m : ℚ) * pow2 (1 - (s : Int))) := by
  obtain ⟨a, b, c, hm, hs⟩ := sigCert_spec r s m h
  have hr : (0 : ℚ) < r := by exact_mod_cast h0
  have hy : 0 < (r : ℚ) * 11 / 13650 * 2 ^ s := by positivity
  have hd := div_pos hy (by positivity : (0 : ℚ) < 2 ^ 50)
  have e1 : (r : ℚ) * 11 / 13650 * (1 - 1 / 2 ^ 50) * 2 ^ s
      = (r : ℚ) * 11 / 13650 * 2 ^ s - (r : ℚ) * 11 / 13650 * 2 ^ s / 2 ^ 50 := by ring
  have e2 : (r : ℚ) * 11 / 13650 * (1 + 1 / 2 ^ 50) * 2 ^ s
      = (r : ℚ) * 11 / 13650 * 2 ^ s + (r : ℚ) * 11 / 13650 * 2 ^ s / 2 ^ 50 := by ring
  rw [e1] at a c
  rw [e2] at b
  have hq : (r : ℚ) / 4095 * (33 / 10) * 2
      = (r : ℚ) * 11 / 13650 * 2 ^ s * pow2 (1 - (s : Int)) := by
    have h1 : pow2 1 = 2 := by norm_num [pow2]
    rw [sub_eq_add_neg, pow2_add, h1, pow2_neg_natCast]
    field_simp
    ring
  rw [hq]
  have key := Format.round_scaled binary32 ((r : ℚ) * 11 / 13650 * 2 ^ s) (m : Int)
    (1 - (s : Int)) (by decide)
    (by show (2 : ℚ) ^ 23 ≤ (r : ℚ) * 11 / 13650 * 2 ^ s; linarith)
    (by push_cast; linarith) (by push_cast; linarith)
    (by show ((m : Nat) : Int) < 2 ^ 24; exact_mod_cast hm)
    (by simp only [binary32, Format.emin]; omega)
    (by simp only [binary32]; omega)
  rw [key]
  push_cast
  rfl

/-! ## Evaluation lemmas -/

theorem staticCastInt_fin (castUndef : Flt → Int) (q : ℚ)
    (h : -2 ^ 31 ≤ truncate q ∧ truncate q < 2 ^ 31) :
    staticCastInt castUndef (Flt.fin q) = truncate q := by
  simp only [staticCastInt]
  rw [if_pos h]

theorem toHexString_of_defined (castUndef : Flt → Int) (v : Flt) (d : Int) (s : String)
    (h : toHexStringDefined v d = some s) : toHexString castUndef v d = s := by
  unfold toHexStringDefined scaled at h
  unfold toHexString
  by_cases hd : d = 0
  · simp only [hd, if_true] at h ⊢
    cases v with
    | nan => simp at h
    | inf b => simp at h
    | fin q =>
      simp only at h
      split at h
      · rename_i hr
        rw [staticCastInt_fin castUndef q hr]
        exact Option.some.inj h
      · simp at h
  · simp only [hd, if_false] at h ⊢
    generalize Flt.mul binary64 v (pow10 d) = w at h ⊢
    cases w with
    | nan => simp at h
    | inf b => simp at h
    | fin q =>
      simp only at h
      split at h
      · rename_i hr
        rw [staticCastInt_fin castUndef q hr]
        exact Option.some.inj h
      · simp at h

theorem upperHexChars_eq (i : Nat) (h : i < 16) :
    upperHexChars.getD i '0' = hexDigitUpper i := by
  interval_cases i <;> decide

theorem sprintf04X_small (n : Nat) (h : n ≤ 65535) :
    sprintf04X (n : Int) = numeral4 n := by
  have hu : ((n : Int) % 2 ^ 32).toNat = n := by omega
  unfold sprintf04X numeral4
  simp only [hu, List.map_cons, List.map_nil]
  rw [upperHexChars_eq _ (Nat.mod_lt _ (by norm_num)),
    upperHexChars_eq _ (Nat.mod_lt _ (by norm_num)),
    upperHexChars_eq _ (Nat.mod_lt _ (by norm_num)),
    upperHexChars_eq _ (Nat.mod_lt _ (by norm_num))]
  congr 1
  have z : hexDigitUpper 0 = '0' := by decide
  by_cases h1 : n < 16
  · have a1 : n / 4096 % 16 = 0 := by omega
    have a2 : n / 256 % 16 = 0 := by omega
    have a3 : n / 16 % 16 = 0 := by omega
    have a4 : n % 16 = n := by omega
    simp [hexDigits, h1, a1, a2, a3, a4, z]
  · by_cases h2 : n < 256
    · have b1 : n / 16 < 16 := by omega
      have a1 : n / 4096 % 16 = 0 := by omega
      have a2 : n / 256 % 16 = 0 := by omega
      have a3 : n / 16 % 16 = n / 16 := by omega
      simp [hexDigits, h1, b1, a1, a2, a3, z]
    · by_cases h3 : n < 4096
      · have b1 : ¬ n / 16 < 16 := by omega
        have b2 : n / 16 / 16 < 16 := by omega
        have a1 : n / 4096 % 16 = 0 := by omega
        have a2 : n / 256 % 16 = n / 16 / 16 := by omega
        simp [hexDigits, h1, b1, b2, a1, a2, z]
      · have b1 : ¬ n / 16 < 16 := by omega
        have b2 : ¬ n / 16 / 16 < 16 := by omega
        have b3 : n / 16 / 16 / 16 < 16 := by omega
        have a1 : n / 4096 % 16 = n / 16 / 16 / 16 := by omega
        have a2 : n / 256 % 16 = n / 16 / 16 % 16 := by omega
        simp [hexDigits, h1, b1, b2, b3, a1, a2]

/-! ## Frame encoder -/

theorem createDataFrame_unfold (castUndef : Flt → Int) (t h b : Flt) :
    createDataFrame castUndef t h b =
      toHexString castUndef b 2 ++ toHexString castUndef t 1 ++ toHexString castUndef h 0 :=
  rfl

/-- C1 (failing input): a temperature of -5.0 encoded with one decimal place
gives the 8-character text `FFFFFFCE`, not 4 characters; with its terminating
NUL it does not fit the 5-byte buffer `hexChar`. -/
theorem toHexString_negative_eight_chars (castUndef : Flt → Int) :
    toHexString castUndef (Flt.fin (-5)) 1 = "FFFFFFCE" ∧
    (toHexString castUndef (Flt.fin (-5)) 1).length = 8 ∧
    hexCharSize < (toHexString castUndef (Flt.fin (-5)) 1).length + 1 := by
  have h : toHexString castUndef (Flt.fin (-5)) 1 = "FFFFFFCE" :=
    toHexString_of_defined castUndef _ _ _ (by decide!)
  rw [h]
  exact ⟨rfl, by decide, by decide⟩

/-- C2 (counterexample): 25.4 is not a `float`; the nearest one is
13316915 / 2^19 = 25.399999618530273... (a `float`, less than half a unit in
the last place, 2^(-20), below 25.4); its product with 10 is 253.99999618...,
which truncates to 253, so the text is `00FD`, not `00FE`. -/
theorem toHexString_25_4_not_00FE :
    Flt.ofDecimal binary32 254 1 = Flt.fin (13316915 / 524288) ∧
    binary32.Representable (13316915 / 524288) ∧
    |(254 / 10 : ℚ) - 13316915 / 524288| < 1 / 2 ^ 20 ∧
    scaled (Flt.ofDecimal binary32 254 1) 1 = Flt.fin (66584575 / 262144) ∧
    toHexString castSaturate (Flt.ofDecimal binary32 254 1) 1 = "00FD" ∧
    toHexString castSaturate (Flt.ofDecimal binary32 254 1) 1 ≠ "00FE" := by
  have h : toHexString castSaturate (Flt.ofDecimal binary32 254 1) 1 = "00FD" :=
    toHexString_of_defined castSaturate _ _ _ (by decide!)
  refine ⟨by decide!, ?_, ?_, by decide!, h, ?_⟩
  · refine ⟨13316915, -19, by norm_num [binary32], by norm_num [binary32, Format.emin],
      by norm_num [binary32], ?_⟩
    rw [pow2_eq_zpow]
    norm_num
  · rw [abs_lt]
    constructor <;> norm_num
  · rw [h]
    decide

/-- C2 (amended): whenever the operand of the conversion (`value` for
`decimalPlaces == 0`, else the `double` product `value * pow(10, d)`) is a
finite `q` whose truncation toward zero `n` satisfies `0 ≤ n ≤ 65535`,
`toHexString` returns the 4-digit zero-padded upper-case base-16 numeral of
`n`, and for a `float` value and `d ≤ 12` that product is exactly `v * 10^d`.
On the `float` arguments nearest to 25.4, 60 and 3.85 the results are `00FD`
(with 1 decimal place), `003C` (with 0) and `0180` (with 2). -/
theorem toHexString_in_range (castUndef : Flt → Int) :
    (∀ (v : Flt) (d : Int) (q : ℚ), 0 ≤ d → scaled v d = Flt.fin q →
      0 ≤ truncate q → truncate q ≤ 65535 →
      toHexString castUndef v d = numeral4 (truncate q).toNat ∧
      (∀ x : ℚ, v = Flt.fin x → binary32.Representable x → d ≤ 12 →
        q = x * (10 : ℚ) ^ d.toNat)) ∧
    toHexString castUndef (Flt.ofDecimal binary32 254 1) 1 = "00FD" ∧
    toHexString castUndef (Flt.ofDecimal binary32 60 0) 0 = "003C" ∧
    toHexString castUndef (Flt.ofDecimal binary32 385 2) 2 = "0180" := by
  refine ⟨?_, toHexString_of_defined castUndef _ _ _ (by decide!),
    toHexString_of_defined castUndef _ _ _ (by decide!),
    toHexString_of_defined castUndef _ _ _ (by decide!)⟩
  intro v d q hd hq h0 h1
  constructor
  · apply toHexString_of_defined
    unfold toHexStringDefined
    rw [hq]
    simp only
    rw [if_pos ⟨by omega, by omega⟩]
    congr 1
    have h2 : (truncate q).toNat ≤ 65535 := by omega
    rw [← sprintf04X_small _ h2, Int.toNat_of_nonneg h0]
  · intro x hx hr h12
    subst hx
    have h3 := scaled_exact x d hr hd h12
    rw [hq] at h3
    exact Flt.fin.inj h3

/-- C2 (witness): the value 60 with no decimal place gives `003C`. -/
theorem toHexString_in_range_witness :
    ((0 : Int) ≤ 0 ∧ scaled (Flt.fin 60) 0 = Flt.fin 60 ∧
      0 ≤ truncate 60 ∧ truncate 60 ≤ 65535) ∧
    toHexString castSaturate (Flt.fin 60) 0 = numeral4 (truncate 60).toNat ∧
    numeral4 (truncate 60).toNat = "003C" :=
  ⟨⟨by decide, by decide!, by decide!, by decide!⟩,
   ((toHexString_in_range castSaturate).1 (Flt.fin 60) 0 60 (by decide) (by decide!)
      (by decide!) (by decide!)).1, by decide!⟩

/-- C3: the frame is the battery field (2 decimal places), then the
temperature field (1 decimal place), then the humidity field (0 decimal
places), and nothing else. -/
theorem createDataFrame_eq_concat (castUndef : Flt → Int)
    (temperature humidity batteryVoltage : Flt) :
    createDataFrame castUndef temperature humidity batteryVoltage =
      toHexString castUndef batteryVoltage 2 ++ toHexString castUndef temperature 1 ++
        toHexString castUndef humidity 0 := by
  rfl

/-- C4 (counterexample): on the `float` arguments nearest to 25.4, 60 and
3.85 the frame is not `018100FE003C`. -/
theorem createDataFrame_spec_example_differs :
    createDataFrame castSaturate (Flt.ofDecimal binary32 254 1) (Flt.ofDecimal binary32 60 0)
      (Flt.ofDecimal binary32 385 2) ≠ "018100FE003C" := by
  rw [createDataFrame_unfold,
    toHexString_of_defined castSaturate _ 2 "0180" (by decide!),
    toHexString_of_defined castSaturate _ 1 "00FD" (by decide!),
    toHexString_of_defined castSaturate _ 0 "003C" (by decide!)]
  decide

/-- C4 (amended): on the `float` arguments nearest to 25.4, 60 and 3.85
(13316915 / 2^19, 60 and 8074035 / 2^21 = 3.849999904632568...) the frame is
`018000FD003C`: the battery product 384.99999046... truncates to 384 = 0x180
and the temperature product 253.99999618... to 253 = 0xFD. -/
theorem createDataFrame_spec_example (castUndef : Flt → Int) :
    Flt.ofDecimal binary32 254 1 = Flt.fin (13316915 / 524288) ∧
    Flt.ofDecimal binary32 60 0 = Flt.fin 60 ∧
    Flt.ofDecimal binary32 385 2 = Flt.fin (8074035 / 2097152) ∧
    binary32.Representable (8074035 / 2097152) ∧
    |(385 / 100 : ℚ) - 8074035 / 2097152| < 1 / 2 ^ 23 ∧
    scaled (Flt.ofDecimal binary32 385 2) 2 = Flt.fin (201850875 / 524288) ∧
    scaled (Flt.ofDecimal binary32 254 1) 1 = Flt.fin (66584575 / 262144) ∧
    createDataFrame castUndef (Flt.ofDecimal binary32 254 1) (Flt.ofDecimal binary32 60 0)
      (Flt.ofDecimal binary32 385 2) = "018000FD003C" := by
  refine ⟨by decide!, by decide!, by decide!, ?_, ?_, by decide!, by decide!, ?_⟩
  · refine ⟨8074035, -21, by norm_num [binary32], by norm_num [binary32, Format.emin],
      by norm_num [binary32], ?_⟩
    rw [pow2_eq_zpow]
    norm_num
  · rw [abs_lt]
    constructor <;> norm_num
  · rw [createDataFrame_unfold,
      toHexString_of_defined castUndef _ 2 "0180" (by decide!),
      toHexString_of_defined castUndef _ 1 "00FD" (by decide!),
      toHexString_of_defined castUndef _ 0 "003C" (by decide!)]
    decide

/-! ## Sensor reader and cycle controller -/

theorem readDHT22_values (dev : Device) (rt rh : Flt) :
    (readDHT22 dev rt rh).2 = dhtValues rt rh := by
  unfold dhtValues readDHT22
  simp only
  split <;> rfl

theorem readBatteryVoltage_value (dev : Device) (r : Int) :
    (readBatteryVoltage dev r).2 = batteryVoltageOf r := rfl

theorem dhtValues_of_nan (rt rh : Flt) (h : isnan rt = true ∨ isnan rh = true) :
    dhtValues rt rh = (Flt.fin 0, Flt.fin 0) := by
  unfold dhtValues readDHT22
  simp only
  rw [if_pos (by simpa using h)]

theorem transmitted_append (xs ys : List Event) :
    transmitted (xs ++ ys) = transmitted xs ++ transmitted ys := by
  induction xs with
  | nil => rfl
  | cons x xs ih => cases x <;> simp [transmitted, ih]

/-- The log of one iteration: the log before it followed by the effects of
the iteration, whose diagnostics depend on the validity of the reading. -/
theorem loop_log (castUndef : Flt → Int) (dev : Device) (s : Sample) :
    (loop castUndef dev s).log = dev.log ++
      ([Event.digitalWrite Level.LOW, Event.delay 3000,
        Event.dhtReadTemperature s.rawTemperature, Event.dhtReadHumidity s.rawHumidity] ++
       (if isnan s.rawTemperature || isnan s.rawHumidity then
          [Event.serialPrintln "Erreur de lecture du capteur DHT22 !"]
        else
          [Event.serialPrint "Température: ", Event.serialPrintFloat s.rawTemperature,
           Event.serialPrint " °C, Humidité: ", Event.serialPrintFloat s.rawHumidity,
           Event.serialPrintln " %"]) ++
       [Event.analogRead s.adcValue, Event.serialPrint "Tension de la batterie: ",
        Event.serialPrintFloat (batteryVoltageOf s.adcValue), Event.serialPrintln " V",
        Event.serialPrintln ("Trame de données : " ++
          createDataFrame castUndef (dhtValues s.rawTemperature s.rawHumidity).1
            (dhtValues s.rawTemperature s.rawHumidity).2 (batteryVoltageOf s.adcValue)),
        Event.transmit
          (createDataFrame castUndef (dhtValues s.rawTemperature s.rawHumidity).1
            (dhtValues s.rawTemperature s.rawHumidity).2 (batteryVoltageOf s.adcValue)),
        Event.digitalWrite Level.HIGH,
        Event.displayTemperature (dhtValues s.rawTemperature s.rawHumidity).1,
        Event.delay 10000]) := by
  unfold loop dhtValues batteryVoltageOf
  by_cases h : (isnan s.rawTemperature || isnan s.rawHumidity) = true
  · simp [readDHT22, readBatteryVoltage, sendDataFrame, displayTemperature, delay,
      digitalWrite, Device.emit, h, Device.reset]
  · simp [readDHT22, readBatteryVoltage, sendDataFrame, displayTemperature, delay,
      digitalWrite, Device.emit, h, Device.reset]

theorem loop_vext (castUndef : Flt → Int) (dev : Device) (s : Sample) :
    (loop castUndef dev s).vext = Level.HIGH := by
  unfold loop
  simp only [readDHT22]
  split <;> rfl

theorem transmitted_loop (castUndef : Flt → Int) (dev : Device) (s : Sample) :
    transmitted (loop castUndef dev s).log = transmitted dev.log ++
      [createDataFrame castUndef (dhtValues s.rawTemperature s.rawHumidity).1
        (dhtValues s.rawTemperature s.rawHumidity).2 (batteryVoltageOf s.adcValue)] := by
  rw [loop_log, transmitted_append, transmitted_append, transmitted_append]
  congr 1
  split <;> simp [transmitted]

theorem toHexString_zero (castUndef : Flt → Int) :
    toHexString castUndef (Flt.fin 0) 1 = "0000" ∧ toHexString castUndef (Flt.fin 0) 0 = "0000" :=
  ⟨toHexString_of_defined castUndef _ _ _ (by decide!),
   toHexString_of_defined castUndef _ _ _ (by decide!)⟩

theorem foldl_loop_vext (castUndef : Flt → Int) (samples : List Sample) :
    ∀ dev : Device, dev.vext = Level.HIGH →
      (samples.foldl (loop castUndef) dev).vext = Level.HIGH := by
  induction samples with
  | nil => intro dev h; exact h
  | cons s ss ih => intro dev _; exact ih _ (loop_vext castUndef dev s)

/-- C5 (failing input): with a sensor temperature of -5.0 (humidity 60, raw
ADC value 2389) the frame put on the outbound line is `0181FFFFFFCE003C`,
16 characters long instead of 12. -/
theorem loop_negative_temperature_frame (castUndef : Flt → Int) :
    transmitted (loop castUndef Device.reset ⟨Flt.fin (-5), Flt.fin 60, 2389⟩).log
      = ["0181FFFFFFCE003C"] ∧
    ("0181FFFFFFCE003C" : String).length = 16 := by
  refine ⟨?_, by decide⟩
  rw [transmitted_loop]
  have hv : dhtValues (Flt.fin (-5)) (Flt.fin 60) = (Flt.fin (-5), Flt.fin 60) := by decide!
  have hb : batteryVoltageOf 2389 = Flt.fin (63085 / 16384) := by decide!
  simp only [hv, hb, createDataFrame_unfold]
  rw [toHexString_of_defined castUndef _ 2 "0181" (by decide!),
    toHexString_of_defined castUndef _ 1 "FFFFFFCE" (by decide!),
    toHexString_of_defined castUndef _ 0 "003C" (by decide!)]
  decide

/-- C6: when the raw temperature or the raw humidity is NaN, `readDHT22`
hands back 0.0 for the temperature and 0.0 for the humidity. -/
theorem readDHT22_nan_gives_zeros (dev : Device) (rawTemperature rawHumidity : Flt)
    (h : isnan rawTemperature = true ∨ isnan rawHumidity = true) :
    (readDHT22 dev rawTemperature rawHumidity).2.1 = Flt.fin 0 ∧
    (readDHT22 dev rawTemperature rawHumidity).2.2 = Flt.fin 0 := by
  rw [readDHT22_values, dhtValues_of_nan _ _ h]
  exact ⟨rfl, rfl⟩

/-- C6 (witness): a failed temperature read next to a valid humidity of 60. -/
theorem readDHT22_nan_gives_zeros_witness :
    (isnan Flt.nan = true ∨ isnan (Flt.fin 60) = true) ∧
    (readDHT22 Device.reset Flt.nan (Flt.fin 60)).2.1 = Flt.fin 0 ∧
    (readDHT22 Device.reset Flt.nan (Flt.fin 60)).2.2 = Flt.fin 0 :=
  ⟨Or.inl rfl, readDHT22_nan_gives_zeros Device.reset Flt.nan (Flt.fin 60) (Or.inl rfl)⟩

/-- C7: in an iteration whose temperature or humidity read is NaN, exactly
one frame is put on the outbound line, it is the battery field followed by
`0000` and `0000`, the power line is driven HIGH (disabled) right after the
transmission, and it is HIGH when the iteration ends. -/
theorem loop_failed_read_still_sends (castUndef : Flt → Int) (dev : Device) (s : Sample)
    (h : isnan s.rawTemperature = true ∨ isnan s.rawHumidity = true) :
    transmitted (loop castUndef dev s).log = transmitted dev.log ++
      [toHexString castUndef (batteryVoltageOf s.adcValue) 2 ++ "0000" ++ "0000"] ∧
    (∃ before : List Event, (loop castUndef dev s).log = before ++
      [Event.transmit (toHexString castUndef (batteryVoltageOf s.adcValue) 2 ++ "0000" ++ "0000"),
       Event.digitalWrite Level.HIGH, Event.displayTemperature (Flt.fin 0),
       Event.delay 10000]) ∧
    (loop castUndef dev s).vext = Level.HIGH := by
  have hf : createDataFrame castUndef (dhtValues s.rawTemperature s.rawHumidity).1
      (dhtValues s.rawTemperature s.rawHumidity).2 (batteryVoltageOf s.adcValue)
      = toHexString castUndef (batteryVoltageOf s.adcValue) 2 ++ "0000" ++ "0000" := by
    rw [dhtValues_of_nan _ _ h, createDataFrame_unfold, (toHexString_zero castUndef).1,
      (toHexString_zero castUndef).2]
  refine ⟨?_, ?_, loop_vext castUndef dev s⟩
  · rw [transmitted_loop, hf]
  · rw [loop_log, hf, dhtValues_of_nan _ _ h]
    refine ⟨dev.log ++
      ([Event.digitalWrite Level.LOW, Event.delay 3000,
        Event.dhtReadTemperature s.rawTemperature, Event.dhtReadHumidity s.rawHumidity] ++
       (if isnan s.rawTemperature || isnan s.rawHumidity then
          [Event.serialPrintln "Erreur de lecture du capteur DHT22 !"]
        else
          [Event.serialPrint "Température: ", Event.serialPrintFloat s.rawTemperature,
           Event.serialPrint " °C, Humidité: ", Event.serialPrintFloat s.rawHumidity,
           Event.serialPrintln " %"]) ++
       [Event.analogRead s.adcValue, Event.serialPrint "Tension de la batterie: ",
        Event.serialPrintFloat (batteryVoltageOf s.adcValue), Event.serialPrintln " V",
        Event.serialPrintln ("Trame de données : " ++
          (toHexString castUndef (batteryVoltageOf s.adcValue) 2 ++ "0000" ++ "0000"))]), ?_⟩
    simp

/-- C7 (witness): a failed temperature read with raw ADC value 2389. -/
theorem loop_failed_read_still_sends_witness :
    (isnan Flt.nan = true ∨ isnan (Flt.fin 60) = true) ∧
    transmitted (loop castSaturate Device.reset ⟨Flt.nan, Flt.fin 60, 2389⟩).log =
      transmitted Device.reset.log ++
      [toHexString castSaturate (batteryVoltageOf 2389) 2 ++ "0000" ++ "0000"] ∧
    (loop castSaturate Device.reset ⟨Flt.nan, Flt.fin 60, 2389⟩).vext = Level.HIGH :=
  ⟨Or.inl rfl,
   (loop_failed_read_still_sends castSaturate Device.reset ⟨Flt.nan, Flt.fin 60, 2389⟩
      (Or.inl rfl)).1,
   (loop_failed_read_still_sends castSaturate Device.reset ⟨Flt.nan, Flt.fin 60, 2389⟩
      (Or.inl rfl)).2.2⟩

/-- C8: for every raw sample `r` of the 12-bit converter (`0 ≤ r ≤ 4095`),
`readBatteryVoltage` returns the quantity `(r / 4095 * 3.3) * 2` as a `float`:
the returned value is the `float` nearest to the exact quantity, it is the
value obtained by evaluating the expression in the order the specification
words it (divide by 4095, multiply by 3.3, multiply by 2) in the types of the
code, and it is finite; `r = 0` gives 0 V and `r = 4095` gives 6.6 V, that is
the `float` `6.6f` = 13841203 / 2^21, the `float` nearest to 6.6. -/
theorem readBatteryVoltage_correctly_rounded (dev : Device) (r : Int)
    (h0 : 0 ≤ r) (h1 : r ≤ 4095) :
    (readBatteryVoltage dev r).2 = binary32.round ((r : ℚ) / 4095 * (33 / 10) * 2) ∧
    (readBatteryVoltage dev r).2 = claimOrderVoltage r ∧
    (∃ v : ℚ, (readBatteryVoltage dev r).2 = Flt.fin v) ∧
    (readBatteryVoltage dev 0).2 = Flt.fin 0 ∧
    (readBatteryVoltage dev 4095).2 = Flt.ofDecimal binary32 66 1 := by
  simp only [readBatteryVoltage_value]
  have z0 : batteryVoltageOf 0 = Flt.fin 0 := by decide!
  have z1 : batteryVoltageOf 4095 = Flt.ofDecimal binary32 66 1 := by decide!
  rcases eq_or_lt_of_le h0 with h | h
  · subst h
    exact ⟨by decide!, by decide!, ⟨0, z0⟩, z0, z1⟩
  · obtain ⟨s, m, hc⟩ := sigCert_exists r.toNat (by omega) (by omega)
    have hcast : ((r.toNat : Nat) : ℚ) = (r : ℚ) := by
      have : ((r.toNat : Nat) : Int) = r := Int.toNat_of_nonneg h0
      exact_mod_cast this
    obtain ⟨-, -, -, hm, hs⟩ := sigCert_spec _ _ _ hc
    obtain ⟨p, ep, lp, up⟩ := codeDouble_bounds r (by omega) h1
    obtain ⟨p', ep', lp', up'⟩ := claimDouble_bounds r (by omega) h1
    have hv : batteryVoltageOf r = Flt.fin ((m : ℚ) * pow2 (1 - (s : Int))) := by
      unfold batteryVoltageOf readBatteryVoltage
      simp only [ep, Flt.convert]
      rw [round32_of_cert r.toNat s m p hc (by rw [hcast]; exact lp) (by rw [hcast]; exact up)]
      exact double32_exact s m hm hs
    have hw : claimOrderVoltage r = Flt.fin ((m : ℚ) * pow2 (1 - (s : Int))) := by
      unfold claimOrderVoltage
      simp only [ep', Flt.convert]
      rw [round32_of_cert r.toNat s m p' hc (by rw [hcast]; exact lp')
        (by rw [hcast]; exact up')]
      exact double32_exact s m hm hs
    have hx := exactVoltage_round r.toNat s m hc (by omega)
    rw [hcast] at hx
    exact ⟨by rw [hv, hx], by rw [hv, hw], ⟨_, hv⟩, z0, z1⟩

/-- C8 (witness): the mid-scale raw value 2389, a battery near 3.85 V. -/
theorem readBatteryVoltage_correctly_rounded_witness :
    ((0 : Int) ≤ 2389 ∧ (2389 : Int) ≤ 4095) ∧
    (readBatteryVoltage Device.reset 2389).2
      = binary32.round (((2389 : Int) : ℚ) / 4095 * (33 / 10) * 2) ∧
    (readBatteryVoltage Device.reset 2389).2 = claimOrderVoltage 2389 ∧
    (readBatteryVoltage Device.reset 2389).2 = Flt.fin (63085 / 16384) :=
  ⟨⟨by decide, by decide⟩,
   (readBatteryVoltage_correctly_rounded Device.reset 2389 (by decide) (by decide)).1,
   (readBatteryVoltage_correctly_rounded Device.reset 2389 (by decide) (by decide)).2.1,
   by decide!⟩

/-- C9: the power line is HIGH (disabled, the line being active-low) after
`setup`, after any number of complete iterations, hence at the start of the
next iteration, and again at its end, whatever the hardware returns. -/
theorem power_line_disabled_between_cycles (castUndef : Flt → Int) (dev : Device)
    (samples : List Sample) (s : Sample) :
    (setup dev).vext = Level.HIGH ∧
    (run castUndef dev samples).vext = Level.HIGH ∧
    run castUndef dev (samples ++ [s]) = loop castUndef (run castUndef dev samples) s ∧
    (loop castUndef (run castUndef dev samples) s).vext = Level.HIGH := by
  refine ⟨rfl, ?_, ?_, loop_vext castUndef _ s⟩
  · exact foldl_loop_vext castUndef samples (setup dev) rfl
  · unfold run
    rw [List.foldl_append]
    rfl

/-- C10: the effects of one iteration, serial diagnostics apart, are in this
order and for every input: power line LOW, wait 3000 ms, read temperature,
read humidity, read the ADC, transmit the frame built from these readings,
power line HIGH, render the temperature, wait 10000 ms. -/
theorem loop_steps (castUndef : Flt → Int) (dev : Device) (s : Sample) :
    ∃ cycle : List Event, (loop castUndef dev s).log = dev.log ++ cycle ∧
      cycle.filter (fun e => !e.isDiagnostic) =
        [Event.digitalWrite Level.LOW, Event.delay 3000,
         Event.dhtReadTemperature s.rawTemperature, Event.dhtReadHumidity s.rawHumidity,
         Event.analogRead s.adcValue,
         Event.transmit
          (createDataFrame castUndef (readDHT22 dev s.rawTemperature s.rawHumidity).2.1
            (readDHT22 dev s.rawTemperature s.rawHumidity).2.2
            (readBatteryVoltage dev s.adcValue).2),
         Event.digitalWrite Level.HIGH,
         Event.displayTemperature (readDHT22 dev s.rawTemperature s.rawHumidity).2.1,
         Event.delay 10000] := by
  refine ⟨_, loop_log castUndef dev s, ?_⟩
  rw [readDHT22_values, readBatteryVoltage_value]
  by_cases h : (isnan s.rawTemperature || isnan s.rawHumidity) = true
  · rw [if_pos h]
    simp [List.filter, Event.isDiagnostic]
  · rw [if_neg h]
    simp [List.filter, Event.isDiagnostic]

/-- C14: the outputs of `readDHT22` are never NaN; when neither raw result is
NaN they are the raw results unchanged; the result is always either
(0.0, 0.0) or the pair of raw results, never a mix. -/
theorem readDHT22_never_nan_never_mixed (dev : Device) (rawTemperature rawHumidity : Flt) :
    isnan (readDHT22 dev rawTemperature rawHumidity).2.1 = false ∧
    isnan (readDHT22 dev rawTemperature rawHumidity).2.2 = false ∧
    (isnan rawTemperature = false → isnan rawHumidity = false →
      (readDHT22 dev rawTemperature rawHumidity).2.1 = rawTemperature ∧
      (readDHT22 dev rawTemperature rawHumidity).2.2 = rawHumidity) ∧
    ((readDHT22 dev rawTemperature rawHumidity).2 = (Flt.fin 0, Flt.fin 0) ∨
     (readDHT22 dev rawTemperature rawHumidity).2 = (rawTemperature, rawHumidity)) := by
  unfold readDHT22
  simp only
  by_cases h : (isnan rawTemperature || isnan rawHumidity) = true
  · rw [if_pos h]
    refine ⟨rfl, rfl, ?_, Or.inl rfl⟩
    intro h1 h2
    simp [h1, h2] at h
  · rw [if_neg h]
    simp only [Bool.or_eq_true, not_or, Bool.not_eq_true] at h
    exact ⟨h.1, h.2, fun _ _ => ⟨rfl, rfl⟩, Or.inr rfl⟩

/-- C14 (witness): two valid raw results, 20.5 and 60, are passed through. -/
theorem readDHT22_never_nan_never_mixed_witness :
    (isnan (Flt.fin (41 / 2)) = false ∧ isnan (Flt.fin 60) = false) ∧
    (readDHT22 Device.reset (Flt.fin (41 / 2)) (Flt.fin 60)).2.1 = Flt.fin (41 / 2) ∧
    (readDHT22 Device.reset (Flt.fin (41 / 2)) (Flt.fin 60)).2.2 = Flt.fin 60 :=
  ⟨⟨rfl, rfl⟩,
   (readDHT22_never_nan_never_mixed Device.reset (Flt.fin (41 / 2)) (Flt.fin 60)).2.2.1
     rfl rfl⟩

/-- The effects of one iteration are a function of its hardware results
alone, and exactly one frame is among them. -/
theorem loop_cycle (castUndef : Flt → Int) (s : Sample) :
    ∃ cycle : List Event,
      (∀ dev : Device, (loop castUndef dev s).log = dev.log ++ cycle) ∧
      transmitted cycle =
        [createDataFrame castUndef (dhtValues s.rawTemperature s.rawHumidity).1
          (dhtValues s.rawTemperature s.rawHumidity).2 (batteryVoltageOf s.adcValue)] ∧
      (∀ (level : Level) (waited : Nat), readsPowered level waited cycle = true ∧
        replayState level waited cycle = (Level.HIGH, 10000)) := by
  refine ⟨_, fun dev => loop_log castUndef dev s, ?_, ?_⟩
  · rw [transmitted_append, transmitted_append]
    split <;> simp [transmitted]
  · intro level waited
    split <;> simp [readsPowered, replayState]

theorem readsPowered_append (xs ys : List Event) : ∀ (level : Level) (waited : Nat),
    readsPowered level waited (xs ++ ys) =
      (readsPowered level waited xs &&
        readsPowered (replayState level waited xs).1 (replayState level waited xs).2 ys) := by
  induction xs with
  | nil => intro level waited; simp [readsPowered, replayState]
  | cons x xs ih =>
    intro level waited
    cases x <;> simp [readsPowered, replayState, ih, Bool.and_assoc]

/-- The replay is not vacuous: a read with the line HIGH, or less than
3000 ms after the line was written, is rejected. -/
theorem readsPowered_rejects :
    readsPowered Level.HIGH 5000 [Event.analogRead 0] = false ∧
    readsPowered Level.LOW 2999 [Event.dhtReadTemperature (Flt.fin 20)] = false ∧
    readsPowered Level.HIGH 0
      [Event.digitalWrite Level.LOW, Event.dhtReadHumidity (Flt.fin 60)] = false := by
  refine ⟨by decide, by decide, by decide⟩

/-- C11: two iterations that receive the same raw temperature, raw humidity
and raw ADC value, after arbitrary and possibly different histories, produce
the same effects and put the same single frame on the outbound line; each
leaves the power line HIGH (disabled), and nothing else of the device state
enters the effects of the iteration. -/
theorem frame_depends_only_on_inputs (castUndef : Flt → Int) (dev1 dev2 : Device)
    (hist1 hist2 : List Sample) (s1 s2 : Sample)
    (ht : s1.rawTemperature = s2.rawTemperature) (hh : s1.rawHumidity = s2.rawHumidity)
    (ha : s1.adcValue = s2.adcValue) :
    ∃ (frame : String) (cycle : List Event),
      (loop castUndef (run castUndef dev1 hist1) s1).log
        = (run castUndef dev1 hist1).log ++ cycle ∧
      (loop castUndef (run castUndef dev2 hist2) s2).log
        = (run castUndef dev2 hist2).log ++ cycle ∧
      transmitted cycle = [frame] ∧
      (loop castUndef (run castUndef dev1 hist1) s1).vext = Level.HIGH ∧
      (loop castUndef (run castUndef dev2 hist2) s2).vext = Level.HIGH := by
  have hs : s1 = s2 := by
    cases s1; cases s2
    simp only at ht hh ha
    subst ht hh ha
    rfl
  subst hs
  obtain ⟨cycle, hl, hx, _⟩ := loop_cycle castUndef s1
  exact ⟨_, cycle, hl _, hl _, hx, loop_vext castUndef _ s1, loop_vext castUndef _ s1⟩

/-- C11 (witness): the same reading after no earlier cycle and after one
earlier cycle with a failed read. -/
theorem frame_depends_only_on_inputs_witness :
    ((⟨Flt.fin 20, Flt.fin 60, 2389⟩ : Sample).rawTemperature
        = (⟨Flt.fin 20, Flt.fin 60, 2389⟩ : Sample).rawTemperature ∧
      (⟨Flt.fin 20, Flt.fin 60, 2389⟩ : Sample).rawHumidity
        = (⟨Flt.fin 20, Flt.fin 60, 2389⟩ : Sample).rawHumidity ∧
      (⟨Flt.fin 20, Flt.fin 60, 2389⟩ : Sample).adcValue
        = (⟨Flt.fin 20, Flt.fin 60, 2389⟩ : Sample).adcValue) ∧
    ∃ (frame : String) (cycle : List Event),
      (loop castSaturate (run castSaturate Device.reset []) ⟨Flt.fin 20, Flt.fin 60, 2389⟩).log
        = (run castSaturate Device.reset []).log ++ cycle ∧
      (loop castSaturate (run castSaturate Device.reset [⟨Flt.nan, Flt.fin 55, 100⟩])
          ⟨Flt.fin 20, Flt.fin 60, 2389⟩).log
        = (run castSaturate Device.reset [⟨Flt.nan, Flt.fin 55, 100⟩]).log ++ cycle ∧
      transmitted cycle = [frame] ∧
      (loop castSaturate (run castSaturate Device.reset []) ⟨Flt.fin 20, Flt.fin 60, 2389⟩).vext
        = Level.HIGH ∧
      (loop castSaturate (run castSaturate Device.reset [⟨Flt.nan, Flt.fin 55, 100⟩])
          ⟨Flt.fin 20, Flt.fin 60, 2389⟩).vext = Level.HIGH :=
  ⟨⟨rfl, rfl, rfl⟩,
   frame_depends_only_on_inputs castSaturate Device.reset Device.reset []
     [⟨Flt.nan, Flt.fin 55, 100⟩] ⟨Flt.fin 20, Flt.fin 60, 2389⟩ ⟨Flt.fin 20, Flt.fin 60, 2389⟩
     rfl rfl rfl⟩

/-- C13: in every execution, `setup` followed by any number of iterations
from a device with an empty log, every read of the sensor and of the ADC
happens with the power line LOW (enabled) and at least 3000 ms of delay after
the line was last written; and within each iteration taken alone, replayed
from a line that is HIGH, every read comes after the enabling write and the
3000 ms delay of that same iteration and before the line is HIGH again. -/
theorem reads_only_when_powered (castUndef : Flt → Int) (level : Level)
    (samples : List Sample) :
    readsPowered level 0 (run castUndef ⟨level, []⟩ samples).log = true ∧
    (∀ (dev : Device) (s : Sample), ∃ cycle : List Event,
      (loop castUndef dev s).log = dev.log ++ cycle ∧
      readsPowered Level.HIGH 0 cycle = true ∧
      replayState Level.HIGH 0 cycle = (Level.HIGH, 10000)) := by
  constructor
  · induction samples using List.reverseRecOn with
    | nil => rfl
    | append_singleton xs s ih =>
      obtain ⟨cycle, hl, _, hc⟩ := loop_cycle castUndef s
      have hr : run castUndef ⟨level, []⟩ (xs ++ [s])
          = loop castUndef (run castUndef ⟨level, []⟩ xs) s := by
        unfold run
        rw [List.foldl_append]
        rfl
      rw [hr, hl, readsPowered_append, ih, (hc _ _).1]
      rfl
  · intro dev s
    obtain ⟨cycle, hl, _, hc⟩ := loop_cycle castUndef s
    exact ⟨cycle, hl dev, (hc _ _).1, (hc _ _).2⟩

/-! ## Decoding by position -/

theorem toHexString_numeral4 (castUndef : Flt → Int) (v : Flt) (d : Int) (q : ℚ)
    (hq : scaled v d = Flt.fin q) (h0 : 0 ≤ truncate q) (h1 : truncate q ≤ 65535) :
    toHexString castUndef v d = numeral4 (truncate q).toNat := by
  apply toHexString_of_defined
  unfold toHexStringDefined
  rw [hq]
  simp only
  rw [if_pos ⟨by omega, by omega⟩]
  congr 1
  have h2 : (truncate q).toNat ≤ 65535 := by omega
  rw [← sprintf04X_small _ h2, Int.toNat_of_nonneg h0]

theorem hexDigitValue_upperHexChars (i : Nat) (h : i < 16) :
    hexDigitValue (upperHexChars.getD i '0') = some i := by
  interval_cases i <;> decide

theorem upperHexChars_mem (i : Nat) (h : i < 16) :
    upperHexChars.getD i '0' ∈ upperHexChars := by
  interval_cases i <;> decide

theorem numeral4_data (n : Nat) :
    (numeral4 n).data =
      [upperHexChars.getD (n / 4096 % 16) '0', upperHexChars.getD (n / 256 % 16) '0',
       upperHexChars.getD (n / 16 % 16) '0', upperHexChars.getD (n % 16) '0'] := rfl

theorem parseHex_numeral4 (n : Nat) (h : n ≤ 65535) :
    parseHex (numeral4 n).data = some n := by
  rw [numeral4_data]
  simp only [parseHex, parseHexFrom,
    hexDigitValue_upperHexChars _ (Nat.mod_lt _ (by norm_num : 16 > 0))]
  congr 1
  omega

theorem numeral4_chars (n : Nat) : ∀ c ∈ (numeral4 n).data, c ∈ upperHexChars := by
  rw [numeral4_data]
  intro c hc
  simp only [List.mem_cons, List.mem_singleton, List.not_mem_nil, or_false] at hc
  rcases hc with rfl | rfl | rfl | rfl <;>
    exact upperHexChars_mem _ (Nat.mod_lt _ (by norm_num))

theorem scaled_float_two (b : ℚ) (hb : binary32.Representable b) :
    scaled (Flt.fin b) 2 = Flt.fin (b * 100) := by
  rw [scaled_exact b 2 hb (by decide) (by decide)]
  have h : (2 : Int).toNat = 2 := rfl
  rw [h]
  norm_num

theorem scaled_float_one (t : ℚ) (ht : binary32.Representable t) :
    scaled (Flt.fin t) 1 = Flt.fin (t * 10) := by
  rw [scaled_exact t 1 ht (by decide) (by decide)]
  have h : (1 : Int).toNat = 1 := rfl
  rw [h]
  norm_num

theorem scaled_zero_places (v : Flt) : scaled v 0 = v := rfl

/-- C12: for `float` readings whose scaled truncated values `trunc(b * 100)`,
`trunc(t * 10)` and `trunc(h)` all lie in `0..65535`, the frame has 12
characters, and reading its characters 0-3, 4-7 and 8-11 as base-16 numerals
gives back exactly these three values. -/
theorem frame_fields_by_position (castUndef : Flt → Int) (t h b : ℚ)
    (ht : binary32.Representable t) (hb : binary32.Representable b)
    (hb0 : 0 ≤ truncate (b * 100)) (hb1 : truncate (b * 100) ≤ 65535)
    (ht0 : 0 ≤ truncate (t * 10)) (ht1 : truncate (t * 10) ≤ 65535)
    (hh0 : 0 ≤ truncate h) (hh1 : truncate h ≤ 65535) :
    (createDataFrame castUndef (Flt.fin t) (Flt.fin h) (Flt.fin b)).length = 12 ∧
    parseHex ((createDataFrame castUndef (Flt.fin t) (Flt.fin h) (Flt.fin b)).data.take 4)
      = some (truncate (b * 100)).toNat ∧
    parseHex (((createDataFrame castUndef (Flt.fin t) (Flt.fin h) (Flt.fin b)).data.drop 4).take 4)
      = some (truncate (t * 10)).toNat ∧
    parseHex (((createDataFrame castUndef (Flt.fin t) (Flt.fin h) (Flt.fin b)).data.drop 8).take 4)
      = some (truncate h).toNat := by
  have eb := toHexString_numeral4 castUndef (Flt.fin b) 2 _ (scaled_float_two b hb) hb0 hb1
  have et := toHexString_numeral4 castUndef (Flt.fin t) 1 _ (scaled_float_one t ht) ht0 ht1
  have eh := toHexString_numeral4 castUndef (Flt.fin h) 0 _ (scaled_zero_places _) hh0 hh1
  have pb := parseHex_numeral4 (truncate (b * 100)).toNat (by omega)
  have pt := parseHex_numeral4 (truncate (t * 10)).toNat (by omega)
  have ph := parseHex_numeral4 (truncate h).toNat (by omega)
  rw [createDataFrame_unfold, eb, et, eh]
  rw [numeral4_data] at pb pt ph
  simp only [String.length, String.data_append, numeral4_data]
  refine ⟨rfl, ?_, ?_, ?_⟩
  · simpa using pb
  · simpa using pt
  · simpa using ph

/-- C12 (witness): the `float` readings 20.5, 60 and 3.75. -/
theorem frame_fields_by_position_witness :
    (binary32.Representable (41 / 2) ∧ binary32.Representable (15 / 4) ∧
      0 ≤ truncate ((15 / 4 : ℚ) * 100) ∧ truncate ((15 / 4 : ℚ) * 100) ≤ 65535 ∧
      0 ≤ truncate ((41 / 2 : ℚ) * 10) ∧ truncate ((41 / 2 : ℚ) * 10) ≤ 65535 ∧
      0 ≤ truncate 60 ∧ truncate 60 ≤ 65535) ∧
    (createDataFrame castSaturate (Flt.fin (41 / 2)) (Flt.fin 60) (Flt.fin (15 / 4))).length
      = 12 ∧
    parseHex ((createDataFrame castSaturate (Flt.fin (41 / 2)) (Flt.fin 60)
      (Flt.fin (15 / 4))).data.take 4) = some (truncate ((15 / 4 : ℚ) * 100)).toNat ∧
    (truncate ((15 / 4 : ℚ) * 100)).toNat = 375 :=
  have r1 : binary32.Representable (41 / 2) :=
    ⟨41, -1, by norm_num [binary32], by norm_num [binary32, Format.emin],
      by norm_num [binary32], by rw [pow2_eq_zpow]; norm_num⟩
  have r2 : binary32.Representable (15 / 4) :=
    ⟨15, -2, by norm_num [binary32], by norm_num [binary32, Format.emin],
      by norm_num [binary32], by rw [pow2_eq_zpow]; norm_num⟩
  ⟨⟨r1, r2, by decide!, by decide!, by decide!, by decide!, by decide!, by decide!⟩,
   (frame_fields_by_position castSaturate (41 / 2) 60 (15 / 4) r1 r2 (by decide!) (by decide!)
      (by decide!) (by decide!) (by decide!) (by decide!)).1,
   (frame_fields_by_position castSaturate (41 / 2) 60 (15 / 4) r1 r2 (by decide!) (by decide!)
      (by decide!) (by decide!) (by decide!) (by decide!)).2.1,
   by decide!⟩

/-! ## The battery field -/

theorem pow10_two : pow10 2 = Flt.fin 100 := by
  rw [pow10_exact 2 (by decide) (by decide)]
  have h : (2 : Int).toNat = 2 := rfl
  rw [h]
  norm_num

/-- The operand of the conversion for the battery field of a raw value in
`1..4095`: within a relative error of `2^(-21)` of `r * 660 / 4095`. -/
theorem batteryField_scaled_pos (r : Int) (h0 : 1 ≤ r) (h1 : r ≤ 4095) :
    ∃ q : ℚ, scaled (batteryVoltageOf r) 2 = Flt.fin q ∧
      (r : ℚ) * (44 / 273) * (1 - 1 / 2 ^ 21) ≤ q ∧
      q ≤ (r : ℚ) * (44 / 273) * (1 + 1 / 2 ^ 21) := by
  have hr0 : (1 : ℚ) ≤ r := by exact_mod_cast h0
  have hr1 : (r : ℚ) ≤ 4095 := by exact_mod_cast h1
  obtain ⟨v, hv, l, u⟩ := batteryVoltageOf_approx_pos r h0 h1
  obtain ⟨q, hq, lq, uq⟩ := round64_rel (v * 100) (by linarith) (by norm_num; linarith)
  refine ⟨q, ?_, by linarith, by linarith⟩
  unfold scaled
  rw [if_neg (by decide), hv, pow10_two]
  exact hq

theorem truncate_of_nonneg (q : ℚ) (h : 0 ≤ q) : truncate q = ⌊q⌋ := by
  unfold truncate
  rw [if_pos h]
  rfl

/-- The battery field of a raw value in `0..4095` is the 4-digit numeral of a
value `n ≤ 660`, and `n` is the truncation of a `q` that increases with `r`. -/
theorem batteryField_value (castUndef : Flt → Int) (r : Int) (h0 : 0 ≤ r) (h1 : r ≤ 4095) :
    ∃ q : ℚ, 0 ≤ q ∧ q < 661 ∧
      toHexString castUndef (batteryVoltageOf r) 2 = numeral4 ⌊q⌋.toNat ∧
      0 ≤ ⌊q⌋ ∧ ⌊q⌋ ≤ 660 ∧
      (r : ℚ) * (44 / 273) * (1 - 1 / 2 ^ 21) ≤ q ∧
      q ≤ (r : ℚ) * (44 / 273) * (1 + 1 / 2 ^ 21) := by
  have hr1 : (r : ℚ) ≤ 4095 := by exact_mod_cast h1
  have key : ∀ q : ℚ, scaled (batteryVoltageOf r) 2 = Flt.fin q → 0 ≤ q → q < 661 →
      toHexString castUndef (batteryVoltageOf r) 2 = numeral4 ⌊q⌋.toNat ∧
      0 ≤ ⌊q⌋ ∧ ⌊q⌋ ≤ 660 := by
    intro q hq hq0 hq1
    have hf0 : 0 ≤ ⌊q⌋ := Int.floor_nonneg.mpr hq0
    have hf1 : ⌊q⌋ < 661 := Int.floor_lt.mpr (by exact_mod_cast hq1)
    have ht := truncate_of_nonneg q hq0
    have h3 := toHexString_numeral4 castUndef (batteryVoltageOf r) 2 q hq
      (by rw [ht]; exact hf0) (by rw [ht]; omega)
    rw [ht] at h3
    exact ⟨h3, hf0, by omega⟩
  rcases eq_or_lt_of_le h0 with h | h
  · subst h
    have hs : scaled (batteryVoltageOf 0) 2 = Flt.fin 0 := by decide!
    obtain ⟨a, b, c⟩ := key 0 hs (le_refl 0) (by norm_num)
    exact ⟨0, le_refl 0, by norm_num, a, b, c, by norm_num, by norm_num⟩
  · have hr0 : (1 : ℚ) ≤ r := by exact_mod_cast (show (1 : Int) ≤ r by omega)
    obtain ⟨q, hq, l, u⟩ := batteryField_scaled_pos r (by omega) h1
    have hq0 : 0 ≤ q := by linarith
    have hq1 : q < 661 := by linarith
    obtain ⟨a, b, c⟩ := key q hq hq0 hq1
    exact ⟨q, hq0, hq1, a, b, c, l, u⟩

/-- C15: for raw ADC values `0 ≤ r1 ≤ r2 ≤ 4095` the battery fields are
exactly 4 upper-case hexadecimal characters each, their numeric values lie in
`0..660`, and the value for `r1` is at most the value for `r2`. -/
theorem battery_field_four_digits_monotone (castUndef : Flt → Int) (dev : Device)
    (r1 r2 : Int) (h0 : 0 ≤ r1) (h12 : r1 ≤ r2) (h2 : r2 ≤ 4095) :
    ∃ n1 n2 : Nat,
      (toHexString castUndef (readBatteryVoltage dev r1).2 2).length = 4 ∧
      (∀ c ∈ (toHexString castUndef (readBatteryVoltage dev r1).2 2).data,
        c ∈ upperHexChars) ∧
      parseHex (toHexString castUndef (readBatteryVoltage dev r1).2 2).data = some n1 ∧
      (toHexString castUndef (readBatteryVoltage dev r2).2 2).length = 4 ∧
      (∀ c ∈ (toHexString castUndef (readBatteryVoltage dev r2).2 2).data,
        c ∈ upperHexChars) ∧
      parseHex (toHexString castUndef (readBatteryVoltage dev r2).2 2).data = some n2 ∧
      n1 ≤ 660 ∧ n2 ≤ 660 ∧ n1 ≤ n2 := by
  rw [readBatteryVoltage_value, readBatteryVoltage_value]
  have hq1 : (r1 : ℚ) ≤ r2 := by exact_mod_cast h12
  have hq0 : (0 : ℚ) ≤ r1 := by exact_mod_cast h0
  have hq2 : (r2 : ℚ) ≤ 4095 := by exact_mod_cast h2
  obtain ⟨q1, a0, a1, e1, f0, f1, l1, u1⟩ :=
    batteryField_value castUndef r1 h0 (by omega)
  obtain ⟨q2, b0, b1, e2, g0, g1, l2, u2⟩ :=
    batteryField_value castUndef r2 (by omega) h2
  have hle : ⌊q1⌋ ≤ ⌊q2⌋ ∨ r1 = r2 := by
    rcases eq_or_lt_of_le h12 with h | h
    · exact Or.inr h
    · left
      have h3 : (r1 : ℚ) + 1 ≤ r2 := by exact_mod_cast (show r1 + 1 ≤ r2 by omega)
      exact Int.floor_mono (by linarith)
  rcases hle with hle | heq
  · refine ⟨⌊q1⌋.toNat, ⌊q2⌋.toNat, ?_, ?_, ?_, ?_, ?_, ?_, by omega, by omega, by omega⟩
    · rw [e1]; rfl
    · rw [e1]; exact numeral4_chars _
    · rw [e1]; exact parseHex_numeral4 _ (by omega)
    · rw [e2]; rfl
    · rw [e2]; exact numeral4_chars _
    · rw [e2]; exact parseHex_numeral4 _ (by omega)
  · subst heq
    refine ⟨⌊q1⌋.toNat, ⌊q1⌋.toNat, ?_, ?_, ?_, ?_, ?_, ?_, by omega, by omega, le_refl _⟩
    · rw [e1]; rfl
    · rw [e1]; exact numeral4_chars _
    · rw [e1]; exact parseHex_numeral4 _ (by omega)
    · rw [e1]; rfl
    · rw [e1]; exact numeral4_chars _
    · rw [e1]; exact parseHex_numeral4 _ (by omega)

/-- C15 (witness): the raw values 2389 and 4095, whose battery fields are
`0181` (385) and `0293` (659). -/
theorem battery_field_four_digits_monotone_witness :
    ((0 : Int) ≤ 2389 ∧ (2389 : Int) ≤ 4095 ∧ (4095 : Int) ≤ 4095) ∧
    (∃ n1 n2 : Nat,
      (toHexString castSaturate (readBatteryVoltage Device.reset 2389).2 2).length = 4 ∧
      (∀ c ∈ (toHexString castSaturate (readBatteryVoltage Device.reset 2389).2 2).data,
        c ∈ upperHexChars) ∧
      parseHex (toHexString castSaturate (readBatteryVoltage Device.reset 2389).2 2).data
        = some n1 ∧
      (toHexString castSaturate (readBatteryVoltage Device.reset 4095).2 2).length = 4 ∧
      (∀ c ∈ (toHexString castSaturate (readBatteryVoltage Device.reset 4095).2 2).data,
        c ∈ upperHexChars) ∧
      parseHex (toHexString castSaturate (readBatteryVoltage Device.reset 4095).2 2).data
        = some n2 ∧
      n1 ≤ 660 ∧ n2 ≤ 660 ∧ n1 ≤ n2) ∧
    toHexString castSaturate (readBatteryVoltage Device.reset 2389).2 2 = "0181" ∧
    toHexString castSaturate (readBatteryVoltage Device.reset 4095).2 2 = "0293" :=
  ⟨⟨by decide, by decide, by decide⟩,
   battery_field_four_digits_monotone castSaturate Device.reset 2389 4095
     (by decide) (by decide) (by decide),
   toHexString_of_defined castSaturate _ _ _ (by decide!),
   toHexString_of_defined castSaturate _ _ _ (by decide!)⟩

/-! ## The numeral `sprintf` formats -/

/-- The digit loop of `printf` produces the base-16 digits of a positive
value, most significant first, when the fuel covers the digit count. -/
theorem hexDigits_eq_digits (fuel : Nat) : ∀ m : Nat, 0 < m → m < 16 ^ fuel →
    hexDigits fuel m = (Nat.digits 16 m).reverse.map hexDigitUpper := by
  induction fuel with
  | zero => intro m h0 h1; simp at h1; omega
  | succ k ih =>
    intro m h0 h1
    unfold hexDigits
    by_cases h : m < 16
    · rw [if_pos h, Nat.digits_of_lt 16 m (by omega) h]
      rfl
    · rw [if_neg h, Nat.digits_def' (by norm_num) h0, List.reverse_cons, List.map_append,
        ih (m / 16) (by omega) (by rw [pow_succ] at h1; omega)]
      rfl

theorem map_hexDigitUpper_digits (m : Nat) :
    (Nat.digits 16 m).reverse.map hexDigitUpper
      = (Nat.digits 16 m).reverse.map (fun i => upperHexChars.getD i '0') := by
  apply List.map_congr_left
  intro i hi
  rw [List.mem_reverse] at hi
  exact (upperHexChars_eq i (Nat.digits_lt_base (by norm_num) hi)).symm

/-- The text of `sprintf("%04X")` is the padded upper-case base-16 numeral of
the `int` read as `unsigned int`. -/
theorem sprintf04X_eq_numeral (n : Int) :
    sprintf04X n = hexNumeralPadded 4 (n % 2 ^ 32).toNat := by
  unfold sprintf04X hexNumeralPadded
  have hu : (n % 2 ^ 32).toNat < 16 ^ 8 := by
    have h1 : n % 2 ^ 32 < 2 ^ 32 := Int.emod_lt_of_pos n (by norm_num)
    have h2 : 0 ≤ n % 2 ^ 32 := Int.emod_nonneg n (by norm_num)
    omega
  generalize (n % 2 ^ 32).toNat = u at hu
  simp only
  by_cases h0 : u = 0
  · subst h0
    rfl
  · rw [if_neg h0, hexDigits_eq_digits 8 u (by omega) hu, map_hexDigitUpper_digits]

theorem hexNumeralPadded_length (m : Nat) (h : m ≠ 0) :
    (hexNumeralPadded 4 m).length = max 4 (Nat.digits 16 m).length := by
  unfold hexNumeralPadded
  rw [if_neg h]
  simp only [String.length, List.length_append, List.length_replicate, List.length_map,
    List.length_reverse]
  omega

theorem digits16_length_bounds (m k : Nat) (h0 : 16 ^ k ≤ m) (h1 : m < 16 ^ 8) :
    k + 1 ≤ (Nat.digits 16 m).length ∧ (Nat.digits 16 m).length ≤ 8 := by
  have hm : m ≠ 0 := by
    have : 0 < 16 ^ k := by positivity
    omega
  have a := Nat.lt_base_pow_length_digits (b := 16) (m := m) (by norm_num)
  have b := Nat.base_pow_length_digits_le 16 m (by norm_num) hm
  constructor
  · have h2 : 16 ^ k < 16 ^ (Nat.digits 16 m).length := lt_of_le_of_lt h0 a
    have h3 := (Nat.pow_lt_pow_iff_right (by norm_num : 1 < 16)).mp h2
    omega
  · have h2 : 16 ^ (Nat.digits 16 m).length < 16 ^ 9 := by
      have : 16 * m < 16 ^ 9 := by omega
      omega
    have h3 := (Nat.pow_lt_pow_iff_right (by norm_num : 1 < 16)).mp h2
    omega

/-! ## The buffer `hexChar` -/

/-- The text `sprintf` formats has 4 characters exactly when the `int`, read
as `unsigned int`, is at most 65535. -/
theorem sprintf04X_length_four_iff (n : Int) :
    (sprintf04X n).length = 4 ↔ (n % 2 ^ 32).toNat ≤ 65535 := by
  rw [sprintf04X_eq_numeral]
  have hu : (n % 2 ^ 32).toNat < 16 ^ 8 := by
    have h1 : n % 2 ^ 32 < 2 ^ 32 := Int.emod_lt_of_pos n (by norm_num)
    have h2 : 0 ≤ n % 2 ^ 32 := Int.emod_nonneg n (by norm_num)
    omega
  generalize (n % 2 ^ 32).toNat = u at hu
  by_cases h0 : u = 0
  · subst h0
    exact ⟨fun _ => by omega, fun _ => rfl⟩
  · rw [hexNumeralPadded_length u h0]
    constructor
    · intro h
      by_contra hc
      have hb := digits16_length_bounds u 4 (by omega) hu
      omega
    · intro h
      have a := Nat.base_pow_length_digits_le 16 u (by norm_num) h0
      have h2 : 16 ^ (Nat.digits 16 u).length < 16 ^ 5 := by omega
      have h3 := (Nat.pow_lt_pow_iff_right (by norm_num : 1 < 16)).mp h2
      omega

/-- The text `sprintf` formats is never shorter than 4 characters. -/
theorem sprintf04X_length_ge (n : Int) : 4 ≤ (sprintf04X n).length := by
  rw [sprintf04X_eq_numeral]
  by_cases h0 : (n % 2 ^ 32).toNat = 0
  · rw [h0]; decide
  · rw [hexNumeralPadded_length _ h0]
    omega

/-- The text `sprintf` formats, with its NUL, fits the buffer `char hexChar[5]`
exactly when the `int`, read as `unsigned int`, is at most 65535: these are the
calls on which `sprintf04X` is the content of `hexChar`.  On every other value
the source writes past the end of `hexChar`. -/
theorem overrunsHexChar_eq_false_iff (n : Int) :
    overrunsHexChar n = false ↔ (n % 2 ^ 32).toNat ≤ 65535 := by
  rw [← sprintf04X_length_four_iff]
  have h := sprintf04X_length_ge n
  unfold overrunsHexChar hexCharSize
  simp only [decide_eq_false_iff_not, not_lt]
  omega

/-- For an `int` (a value in the 32-bit range) the buffer holds the text
exactly for `0 ≤ n ≤ 65535`; negative values and values above 65535 overrun it. -/
theorem overrunsHexChar_int (n : Int) (h0 : -2 ^ 31 ≤ n) (h1 : n < 2 ^ 31) :
    overrunsHexChar n = true ↔ n < 0 ∨ 65535 < n := by
  have h := overrunsHexChar_eq_false_iff n
  cases hb : overrunsHexChar n
  · rw [hb] at h
    have := h.mp rfl
    constructor
    · intro hc; exact absurd hc (by decide)
    · intro hc; omega
  · rw [hb] at h
    constructor
    · intro _
      by_contra hc
      have : (n % 2 ^ 32).toNat ≤ 65535 := by omega
      exact absurd (h.mpr this) (by decide)
    · intro _; rfl

end LoraMultiSondes
